import Mathlib

/-!
Verification of the kallm semantic cache (repository aqstack/mimir).

Vectors are modelled as lists of rationals (Go `[]float64`, idealised to exact
arithmetic).  Because a cosine similarity `dot / (‖a‖·‖b‖)` is irrational in
general, the executable model carries similarities as a pair `(n, S)` denoting
`n / √S` with `S > 0`; all comparisons the code performs on similarities are
implemented as decidable comparisons on such pairs, and a real-valued
interpretation `simVal` connects the pairs to the mathematical value.
-/

namespace Kallm

/-- Dot product of two vectors, `Σ aᵢ·bᵢ` over the common length. -/
def dotQ (a b : List ℚ) : ℚ := (List.zipWith (· * ·) a b).sum

/-- Sum of squares of a vector: the square of its magnitude. -/
def normSq (a : List ℚ) : ℚ := dotQ a a

/-- Modelled from the spec: the guard of `CosineSimilarity` (file with the
vector math is absent from the sources; only its test is present).  The
similarity is 0 when either input is empty, lengths differ, or either vector
has zero magnitude. -/
def degenerate (a b : List ℚ) : Bool :=
  a.isEmpty || b.isEmpty || decide (a.length ≠ b.length) ||
    decide (normSq a = 0) || decide (normSq b = 0)

/-- Exact representation of a similarity value: `(n, S)` denotes `n / √S`. -/
abbrev Sim : Type := ℚ × ℚ

/-- Modelled from the spec: `CosineSimilarity`, in the exact pair
representation: `Σ aᵢbᵢ / √(‖a‖²·‖b‖²)`, or `0 = 0/√1` in the degenerate
cases. -/
def cosineSimP (a b : List ℚ) : Sim :=
  if degenerate a b then (0, 1) else (dotQ a b, normSq a * normSq b)

/-- Decidable test `t ≤ n/√S` (for `S > 0`), by sign analysis and squaring. -/
def simGe (s : Sim) (t : ℚ) : Bool :=
  if 0 ≤ s.1 then decide (t ≤ 0) || decide (t ^ 2 * s.2 ≤ s.1 ^ 2)
  else decide (t < 0) && decide (s.1 ^ 2 ≤ t ^ 2 * s.2)

/-- Decidable test `n₂/√S₂ < n₁/√S₁` (for `S₁, S₂ > 0`). -/
def simGTb (s₁ s₂ : Sim) : Bool :=
  if 0 ≤ s₁.1 then decide (s₂.1 < 0) || decide (s₂.1 ^ 2 * s₁.2 < s₁.1 ^ 2 * s₂.2)
  else decide (s₂.1 < 0) && decide (s₁.1 ^ 2 * s₂.2 < s₂.1 ^ 2 * s₁.2)

/-- Decidable test `n₁/√S₁ = n₂/√S₂` (for `S₁, S₂ > 0`). -/
def simEqb (s₁ s₂ : Sim) : Bool :=
  (decide (0 ≤ s₁.1) == decide (0 ≤ s₂.1)) && decide (s₁.1 ^ 2 * s₂.2 = s₂.1 ^ 2 * s₁.2)

/-- Real value denoted by a similarity pair. -/
noncomputable def simVal (s : Sim) : ℝ := (s.1 : ℝ) / Real.sqrt (s.2 : ℝ)

/-- Magnitude `‖a‖` of a vector, as a real number. -/
noncomputable def magnitude (a : List ℚ) : ℝ := Real.sqrt ((normSq a : ℚ) : ℝ)

/-- Modelled from the spec: `CosineSimilarity(a,b)` as a real number —
`Σ aᵢbᵢ / (‖a‖·‖b‖)`, and 0 when either input is empty, lengths differ, or
either vector has zero magnitude. -/
noncomputable def CosineSimilarity (a b : List ℚ) : ℝ :=
  if degenerate a b then 0 else ((dotQ a b : ℚ) : ℝ) / (magnitude a * magnitude b)

/-! ### Data model (`pkg/api`, reconstructed from its uses in the sources) -/

/-- Content of a chat message: either a plain string or a list of multimodal
parts, of which only the textual ones (`some text`) contribute to keying. -/
inductive MsgContent : Type
  | str : String → MsgContent
  | parts : List (Option String) → MsgContent
deriving DecidableEq

structure Message where
  role : String
  content : MsgContent
deriving DecidableEq

structure Usage where
  totalTokens : ℤ
deriving DecidableEq

structure ChatCompletionRequest where
  model : String
  messages : List Message
  stream : Bool
deriving DecidableEq

structure ChatCompletionResponse where
  id : String
  model : String
  choices : List Message
  usage : Usage
deriving DecidableEq

/-- A cache entry as in `pkg/api`: one request/response pair plus the probe
embedding and the bookkeeping timestamps (milliseconds). -/
structure CacheEntry where
  request : ChatCompletionRequest
  response : ChatCompletionResponse
  embedding : List ℚ
  createdAt : ℤ
  expiresAt : ℤ
  hitCount : ℕ
  lastHitAt : ℤ
deriving DecidableEq

/-! ### Semantic cache (modelled from the spec: `internal/cache/memory.go` is
absent from the sources; only its test is present).  The entry identifier —
a hash of the embedding bytes in the implementation — is modelled
collision-free as the embedding itself. -/

structure Options where
  maxSize : ℕ
  defaultTTL : ℤ
  cleanupInterval : ℤ
  similarityThreshold : ℚ

structure MemoryCache where
  opts : Options
  entries : List CacheEntry
  totalHits : ℕ
  totalMisses : ℕ

/-- Modelled from the spec: cache construction; `nil` options select the
defaults (capacity 10000, TTL 24h, sweep every 5min, threshold 0.95). -/
def NewMemoryCache (opts : Option Options) : MemoryCache :=
  match opts with
  | none => ⟨⟨10000, 86400000, 300000, 19 / 20⟩, [], 0, 0⟩
  | some o => ⟨o, [], 0, 0⟩

/-- Modelled from the spec: evict the entry with the smallest `last_hit_at`
(first encountered on a tie). -/
def evictLRU (l : List CacheEntry) : List CacheEntry :=
  match (l.map (fun u => u.lastHitAt)).min? with
  | none => l
  | some m => l.eraseP (fun u => decide (u.lastHitAt = m))

/-- Modelled from the spec: `Set` admits or replaces.  A repeated admission of
the same exact embedding replaces; a new identifier evicts the
least-recently-hit entry first when the cache is at capacity. -/
def MemoryCache.set (c : MemoryCache) (e : CacheEntry) : MemoryCache :=
  if c.entries.any (fun u => decide (u.embedding = e.embedding)) then
    { c with entries := c.entries.map (fun u => if u.embedding = e.embedding then e else u) }
  else
    let entries := if c.opts.maxSize ≤ c.entries.length then evictLRU c.entries else c.entries
    { c with entries := entries ++ [e] }

/-- Modelled from the spec: one step of the `Get` scan.  Expired entries are
skipped; among live entries the one of maximum similarity wins, ties broken
towards the larger `last_hit_at`, then towards the first encountered. -/
def scanStep (now : ℤ) (q : List ℚ) (best : Option (CacheEntry × Sim)) (e : CacheEntry) :
    Option (CacheEntry × Sim) :=
  if e.expiresAt ≤ now then best
  else
    let s := cosineSimP q e.embedding
    match best with
    | none => some (e, s)
    | some (be, bs) =>
      if simGTb s bs || (simEqb s bs && decide (be.lastHitAt < e.lastHitAt)) then some (e, s)
      else some (be, bs)

/-- Modelled from the spec: the linear scan of `Get`. -/
def scanBest (now : ℤ) (q : List ℚ) (l : List CacheEntry) : Option (CacheEntry × Sim) :=
  l.foldl (scanStep now q) none

/-- Modelled from the spec: `Get(query, threshold)` returns the best live
entry iff its similarity meets the threshold, and performs the hit/miss
accounting on the cache state. -/
def MemoryCache.get (c : MemoryCache) (now : ℤ) (q : List ℚ) (threshold : ℚ) :
    Option (CacheEntry × Sim) × MemoryCache :=
  match scanBest now q c.entries with
  | some (e, s) =>
    if simGe s threshold then
      (some (e, s),
        { c with
          totalHits := c.totalHits + 1,
          entries := c.entries.map (fun u =>
            if u.embedding = e.embedding then
              { u with hitCount := u.hitCount + 1, lastHitAt := now }
            else u) })
    else (none, { c with totalMisses := c.totalMisses + 1 })
  | none => (none, { c with totalMisses := c.totalMisses + 1 })

/-- Modelled from the spec: live entry count. -/
def MemoryCache.size (c : MemoryCache) : ℕ := c.entries.length

/-- Fold a sequence of `Set` calls. -/
def foldSets (l : List CacheEntry) (c : MemoryCache) : MemoryCache :=
  l.foldl MemoryCache.set c

/-- Entries a `Get` at time `now` may consider (those not yet expired). -/
def liveEntries (now : ℤ) (l : List CacheEntry) : List CacheEntry :=
  l.filter (fun e => decide (now < e.expiresAt))

/-! ### Metrics collector (`internal/reports/collector.go`) -/

structure DataPoint where
  timestamp : ℤ
  value : ℚ
deriving DecidableEq

/-- A recorded request.  The `similarity` field carries the exact pair
representation of the float the code stores. -/
structure RequestMetric where
  timestamp : ℤ
  cacheHit : Bool
  similarity : Sim
  latencyMs : ℤ
  tokensSaved : ℤ
  prompt : String
deriving DecidableEq

structure LogEntry where
  timestamp : ℤ
  level : String
  message : String
deriving DecidableEq

structure Collector where
  requests : List RequestMetric
  maxRequests : ℕ
  requestIdx : ℕ
  logs : List LogEntry
  maxLogs : ℕ
  hitRateHistory : List DataPoint
  latencyHistory : List DataPoint
  savingsHistory : List DataPoint
  throughputHistory : List DataPoint
  windowStart : ℤ
  windowHits : ℤ
  windowMisses : ℤ
  windowLatency : ℤ
  windowSavings : ℚ
  totalRequests : ℤ
  totalHits : ℤ
  totalMisses : ℤ
  totalLatencyMs : ℤ
  totalSavings : ℚ
  startTime : ℤ

def NewCollector (now : ℤ) : Collector :=
  ⟨[], 1000, 0, [], 100, [], [], [], [], now, 0, 0, 0, 0, 0, 0, 0, 0, 0, now⟩

/-- `appendWithLimit`: append, shifting out the oldest point at capacity. -/
def appendWithLimit (slice : List DataPoint) (point : DataPoint) (limit : ℕ) : List DataPoint :=
  if limit ≤ slice.length then slice.drop 1 ++ [point]
  else slice ++ [point]

/-- `rotateWindow`: close the current one-minute window into the four
histories (only when it saw at least one request) and reset it. -/
def Collector.rotateWindow (c : Collector) (now : ℤ) : Collector :=
  let total := c.windowHits + c.windowMisses
  let c' :=
    if 0 < total then
      { c with
        hitRateHistory := appendWithLimit c.hitRateHistory
          ⟨c.windowStart, (c.windowHits : ℚ) / (total : ℚ) * 100⟩ 60,
        latencyHistory := appendWithLimit c.latencyHistory
          ⟨c.windowStart, (c.windowLatency : ℚ) / (total : ℚ)⟩ 60,
        savingsHistory := appendWithLimit c.savingsHistory
          ⟨c.windowStart, c.windowSavings⟩ 60,
        throughputHistory := appendWithLimit c.throughputHistory
          ⟨c.windowStart, (total : ℚ)⟩ 60 }
    else c
  { c' with
    windowStart := now, windowHits := 0, windowMisses := 0,
    windowLatency := 0, windowSavings := 0 }

/-- The arguments of one `RecordRequest` call (with the wall-clock time the
call observes, in milliseconds). -/
structure RecordCall where
  now : ℤ
  cacheHit : Bool
  similarity : Sim
  latencyMs : ℤ
  tokensSaved : ℤ
  prompt : String

/-- `RecordRequest`: rotate the window if a minute has passed, truncate the
prompt to 100 characters, append to the request ring (overwriting at the
write index when full), update window and lifetime counters, and accrue
savings of $0.000002 per token on hits. -/
def Collector.recordRequest (c : Collector) (r : RecordCall) : Collector :=
  let c₀ := if 60000 ≤ r.now - c.windowStart then c.rotateWindow r.now else c
  let prompt := if 100 < r.prompt.length then (r.prompt.take 97) ++ "..." else r.prompt
  let metric : RequestMetric := ⟨r.now, r.cacheHit, r.similarity, r.latencyMs, r.tokensSaved, prompt⟩
  let c₁ :=
    if c₀.requests.length < c₀.maxRequests then
      { c₀ with requests := c₀.requests ++ [metric] }
    else
      { c₀ with
        requests := c₀.requests.set c₀.requestIdx metric,
        requestIdx := (c₀.requestIdx + 1) % c₀.maxRequests }
  let c₂ :=
    if r.cacheHit then
      { c₁ with windowHits := c₁.windowHits + 1, totalHits := c₁.totalHits + 1 }
    else
      { c₁ with windowMisses := c₁.windowMisses + 1, totalMisses := c₁.totalMisses + 1 }
  let c₃ :=
    { c₂ with
      windowLatency := c₂.windowLatency + r.latencyMs,
      totalLatencyMs := c₂.totalLatencyMs + r.latencyMs,
      totalRequests := c₂.totalRequests + 1 }
  if r.cacheHit && decide (0 < r.tokensSaved) then
    { c₃ with
      windowSavings := c₃.windowSavings + (r.tokensSaved : ℚ) * (1 / 500000),
      totalSavings := c₃.totalSavings + (r.tokensSaved : ℚ) * (1 / 500000) }
  else c₃

def foldRecords (l : List RecordCall) (c : Collector) : Collector :=
  l.foldl Collector.recordRequest c

/-- The metric a `RecordRequest` call stores in the ring. -/
def metricOf (r : RecordCall) : RequestMetric :=
  ⟨r.now, r.cacheHit, r.similarity, r.latencyMs, r.tokensSaved,
    if 100 < r.prompt.length then (r.prompt.take 97) ++ "..." else r.prompt⟩

/-- A fixed miss record used to exercise the ring. -/
def rec0 : RecordCall := ⟨0, false, (0, 1), 0, 0, ""⟩

/-- A family of records distinguishable by their latency. -/
def mkCall (k : ℕ) : RecordCall := ⟨0, false, (0, 1), (k : ℤ), 0, ""⟩

structure BucketCount where
  bucket : String
  count : ℕ
deriving DecidableEq

/-- `calculateLatencyDistribution`: the five fixed buckets, first matching
arm of the `switch` wins. -/
def calculateLatencyDistribution (reqs : List RequestMetric) : List BucketCount :=
  [⟨"0-10ms", reqs.countP (fun r => decide (r.latencyMs < 10))⟩,
   ⟨"10-50ms", reqs.countP (fun r => !decide (r.latencyMs < 10) && decide (r.latencyMs < 50))⟩,
   ⟨"50-100ms", reqs.countP (fun r => !decide (r.latencyMs < 50) && decide (r.latencyMs < 100))⟩,
   ⟨"100-500ms", reqs.countP (fun r => !decide (r.latencyMs < 100) && decide (r.latencyMs < 500))⟩,
   ⟨"500ms+", reqs.countP (fun r => !decide (r.latencyMs < 500))⟩]

/-- `calculateSimilarityDistribution`: over cache hits only, five fixed
buckets on the stored similarity, first matching arm wins. -/
def calculateSimilarityDistribution (reqs : List RequestMetric) : List BucketCount :=
  [⟨"0.99-1.0", reqs.countP (fun r => r.cacheHit && simGe r.similarity (99 / 100))⟩,
   ⟨"0.97-0.99", reqs.countP (fun r =>
      r.cacheHit && !simGe r.similarity (99 / 100) && simGe r.similarity (97 / 100))⟩,
   ⟨"0.95-0.97", reqs.countP (fun r =>
      r.cacheHit && !simGe r.similarity (97 / 100) && simGe r.similarity (19 / 20))⟩,
   ⟨"0.90-0.95", reqs.countP (fun r =>
      r.cacheHit && !simGe r.similarity (19 / 20) && simGe r.similarity (9 / 10))⟩,
   ⟨"<0.90", reqs.countP (fun r => r.cacheHit && !simGe r.similarity (9 / 10))⟩]

/-- `formatDuration` on a nonnegative duration in milliseconds. -/
def formatDuration (ms : ℤ) : String :=
  let hoursTotal := ms / 3600000
  let days := hoursTotal / 24
  let hours := hoursTotal % 24
  let mins := (ms / 60000) % 60
  if 0 < days then toString days ++ "d " ++ toString hours ++ "h " ++ toString mins ++ "m"
  else if 0 < hours then toString hours ++ "h " ++ toString mins ++ "m"
  else toString mins ++ "m"

structure Report where
  uptime : String
  totalRequests : ℤ
  totalHits : ℤ
  totalMisses : ℤ
  hitRate : ℚ
  avgLatencyMs : ℚ
  totalSavingsUSD : ℚ
  requestsPerMin : ℚ
  hitRateHistory : List DataPoint
  latencyHistory : List DataPoint
  savingsHistory : List DataPoint
  throughputHistory : List DataPoint
  recentRequests : List RequestMetric
  latencyDistribution : List BucketCount
  similarityDistribution : List BucketCount

/-- `GetReport`: lifetime summary, histories, the loop collecting up to 50
requests walking the ring slice backwards from its end, and the two
distributions over the ring contents. -/
def Collector.getReport (c : Collector) (now : ℤ) : Report :=
  let uptime := now - c.startTime
  { uptime := formatDuration uptime
    totalRequests := c.totalRequests
    totalHits := c.totalHits
    totalMisses := c.totalMisses
    hitRate := if 0 < c.totalRequests then (c.totalHits : ℚ) / (c.totalRequests : ℚ) * 100 else 0
    avgLatencyMs :=
      if 0 < c.totalRequests then (c.totalLatencyMs : ℚ) / (c.totalRequests : ℚ) else 0
    totalSavingsUSD := c.totalSavings
    requestsPerMin :=
      if 0 < uptime then (c.totalRequests : ℚ) / ((uptime : ℚ) / 60000) else 0
    hitRateHistory := c.hitRateHistory
    latencyHistory := c.latencyHistory
    savingsHistory := c.savingsHistory
    throughputHistory := c.throughputHistory
    recentRequests := c.requests.reverse.take 50
    latencyDistribution := calculateLatencyDistribution c.requests
    similarityDistribution := calculateSimilarityDistribution c.requests }

/-- `AddLog`: append to the log ring, dropping the oldest entry at capacity. -/
def Collector.addLog (c : Collector) (now : ℤ) (level message : String) : Collector :=
  let logs := if c.maxLogs ≤ c.logs.length then c.logs.drop 1 else c.logs
  { c with logs := logs ++ [⟨now, level, message⟩] }

/-- Sum of the counts of a distribution. -/
def sumCounts (d : List BucketCount) : ℕ := (d.map (fun b => b.count)).sum

/-- 1001 identical records: one more than the ring holds. -/
def repInputs : List RecordCall := List.replicate 1001 rec0

/-- The report after 1001 identical records on a fresh collector. -/
def repReport : Report := (foldRecords repInputs (NewCollector 0)).getReport 0

/-- 1001 distinguishable records: one more than the ring holds. -/
def ringInputs : List RecordCall := (List.range 1001).map mkCall

/-- The collector after 1001 distinguishable records. -/
def ringCollector : Collector := foldRecords ringInputs (NewCollector 0)

/-- Its report. -/
def ringReport : Report := ringCollector.getReport 0


/-! ### Request pipeline (`internal/proxy/handler.go`) -/

structure Config where
  openAIBaseURL : String
  openAIAPIKey : String
  similarityThreshold : ℚ
  cacheTTL : ℤ

/-- `generateCacheKey`: concatenate `role: text\n` per message, keeping only
textual parts of multimodal content. -/
def generateCacheKey (req : ChatCompletionRequest) : String :=
  req.messages.foldl
    (fun sb msg =>
      sb ++ msg.role ++ ": " ++
        (match msg.content with
         | .str s => s
         | .parts ps => String.join (ps.filterMap id)) ++ "\n")
    ""

/-- Body of the response the handler writes to the client. -/
inductive RespBody : Type
  | raw : String → RespBody
  | cachedResponse : ChatCompletionResponse → RespBody
  | errorEnvelope : String → RespBody
deriving DecidableEq

/-- Observable outcome of one `handleChatCompletions` call: the client
response, the new cache and collector states, the logger warnings, and
traces of the cache/collector calls made. -/
structure HandlerResult where
  status : ℕ
  body : RespBody
  cacheHeader : Option String
  similarityHeader : Option Sim
  cache : MemoryCache
  collector : Collector
  warns : List String
  admitted : Option CacheEntry
  consultedCache : Bool
  recorded : Option RecordCall

/-- `handleChatCompletions` on an already-parsed request.  External effects
are supplied as oracles: `parseChatResponse` for `json.Unmarshal` of the
upstream body, `embedResult` for the embedder call (`none` = error),
`upstream` for `doUpstreamRequest` (`none` = transport error), `setFails`
for the error return of `cache.Set`. -/
def handleChatCompletions (cfg : Config)
    (parseChatResponse : String → Option ChatCompletionResponse)
    (embedResult : Option (List ℚ)) (upstream : Option (ℕ × String))
    (setFails : Bool) (req : ChatCompletionRequest)
    (c : MemoryCache) (col : Collector) (now latencyMs : ℤ) : HandlerResult :=
  if req.stream then
    match upstream with
    | none => ⟨502, .errorEnvelope "Upstream request failed", none, none, c, col, [], none, false, none⟩
    | some (st, bd) => ⟨st, .raw bd, none, none, c, col, [], none, false, none⟩
  else
    let cacheKey := generateCacheKey req
    match embedResult with
    | none =>
      let w := ["failed to generate embedding, forwarding request"]
      match upstream with
      | none => ⟨502, .errorEnvelope "Upstream request failed", none, none, c, col, w, none, false, none⟩
      | some (st, bd) => ⟨st, .raw bd, none, none, c, col, w, none, false, none⟩
    | some emb =>
      match c.get now emb cfg.similarityThreshold with
      | (some (entry, sim), c₁) =>
        let call : RecordCall :=
          ⟨now, true, sim, latencyMs, entry.response.usage.totalTokens, cacheKey⟩
        let col₁ := (col.recordRequest call).addLog now "hit" "[HIT]"
        ⟨200, .cachedResponse entry.response, some "HIT", some sim, c₁, col₁, [],
          none, true, some call⟩
      | (none, c₁) =>
        match upstream with
        | none =>
          ⟨502, .errorEnvelope "Upstream request failed", none, none, c₁, col, [],
            none, true, none⟩
        | some (st, bd) =>
          let toAdmit : Option CacheEntry :=
            if st = 200 then
              match parseChatResponse bd with
              | some chatResp => some ⟨req, chatResp, emb, now, now + cfg.cacheTTL, 0, now⟩
              | none => none
            else none
          let c₂ :=
            match toAdmit with
            | some e => if setFails then c₁ else c₁.set e
            | none => c₁
          let warns :=
            match toAdmit with
            | some _ => if setFails then ["failed to cache response"] else []
            | none => []
          let call : RecordCall := ⟨now, false, (0, 1), latencyMs, 0, cacheKey⟩
          let col₁ := (col.recordRequest call).addLog now "miss" "[MISS]"
          ⟨st, .raw bd, some "MISS", none, c₂, col₁, warns, toAdmit, true, some call⟩

/-! ### OpenAI embedder (`internal/embedding/openai.go`) -/

structure EmbeddingData where
  index : ℤ
  embedding : List ℚ

structure EmbeddingResponse where
  data : List EmbeddingData

/-- Outcome of the HTTP call plus `json.Unmarshal` of its body. -/
inductive NetOutcome : Type
  | transportError : NetOutcome
  | response : ℕ → Option EmbeddingResponse → NetOutcome

/-- Result of `EmbedBatch`, distinguishing a Go runtime panic from a
returned error value. -/
inductive BatchResult : Type
  | success : Option (List (List ℚ)) → BatchResult
  | failure : String → BatchResult
  | panicked : BatchResult
deriving DecidableEq

/-- The fill loop `for _, d := range Data: result[d.Index] = d.Embedding`
over a result slice of fixed length `n`; an index outside `[0, n)` is a
runtime panic, modelled as `none`. -/
def fillLoop (n : ℕ) (ds : List EmbeddingData) (acc : Option (List (List ℚ))) :
    Option (List (List ℚ)) :=
  ds.foldl
    (fun acc d =>
      match acc with
      | none => none
      | some arr =>
        if (0 : ℤ) ≤ d.index ∧ d.index.toNat < n then some (arr.set d.index.toNat d.embedding)
        else none)
    acc

/-- `OpenAIEmbedder.EmbedBatch`: `nil, nil` without any HTTP request on an
empty input; otherwise the HTTP + parse pipeline followed by the index fill
loop over `make([][]float64, len(Data))`. -/
def OpenAIEmbedBatch (texts : List String) (net : NetOutcome) : BatchResult :=
  if texts.isEmpty then .success none
  else
    match net with
    | .transportError => .failure "request failed"
    | .response st parsed =>
      if st ≠ 200 then .failure "API error"
      else
        match parsed with
        | none => .failure "failed to parse response"
        | some resp =>
          match fillLoop resp.data.length resp.data
              (some (List.replicate resp.data.length [])) with
          | some arr => .success (some arr)
          | none => .panicked

/-! ### Concrete fixtures (mirroring `newTestEntry` of the cache test) -/

def msgW : Message := ⟨"user", .str "test"⟩

def reqW : ChatCompletionRequest := ⟨"test-model", [msgW], false⟩

def respW (i : String) : ChatCompletionResponse :=
  ⟨i, "test-model", [⟨"assistant", .str "test response"⟩], ⟨500⟩⟩

def entryW (emb : List ℚ) (expires lastHit : ℤ) (i : String) : CacheEntry :=
  ⟨reqW, respW i, emb, 0, expires, 0, lastHit⟩

def optsW : Options := ⟨100, 3600000, 3600000, 19 / 20⟩

def cacheEmpty : MemoryCache := ⟨optsW, [], 0, 0⟩

def cacheW : MemoryCache := ⟨optsW, [entryW [1] 100 0 "A"], 0, 0⟩

/-- A concrete configuration. -/
def cfgW : Config := ⟨"https://api.openai.com/v1", "key", 19 / 20, 3600000⟩

/-- A concrete parse oracle: only the body `"ok"` parses. -/
def pcrW : String → Option ChatCompletionResponse :=
  fun s => if s = "ok" then some (respW "id") else none


/-! ### Basic facts about `dotQ` and `normSq` -/

theorem dotQ_nil_left (b : List ℚ) : dotQ [] b = 0 := rfl

theorem dotQ_cons (x y : ℚ) (xs ys : List ℚ) :
    dotQ (x :: xs) (y :: ys) = x * y + dotQ xs ys := by
  simp [dotQ, List.zipWith]

theorem normSq_cons (x : ℚ) (xs : List ℚ) :
    normSq (x :: xs) = x * x + normSq xs := dotQ_cons x x xs xs

theorem normSq_nonneg (a : List ℚ) : 0 ≤ normSq a := by
  induction a with
  | nil => simp [normSq, dotQ]
  | cons x xs ih =>
    rw [normSq_cons]
    nlinarith [mul_self_nonneg x]

theorem normSq_nil : normSq ([] : List ℚ) = 0 := rfl

theorem normSq_ne_zero_of_ne (a : List ℚ) (h : normSq a ≠ 0) : a ≠ [] := by
  intro hnil; exact h (hnil ▸ normSq_nil)

/-- Lagrange-style identity used for Cauchy–Schwarz: the cross terms form a
sum of squares. -/
theorem lagrange_aux (x y : ℚ) (xs ys : List ℚ) (h : xs.length = ys.length) :
    normSq (List.zipWith (fun u v => x * v - y * u) xs ys) =
      x ^ 2 * normSq ys + y ^ 2 * normSq xs - 2 * x * y * dotQ xs ys := by
  induction xs generalizing ys with
  | nil =>
    cases ys with
    | nil => simp [normSq, dotQ]
    | cons b bs => simp at h
  | cons a as ih =>
    cases ys with
    | nil => simp at h
    | cons b bs =>
      simp only [List.length_cons, Nat.succ_inj] at h
      simp only [List.zipWith_cons_cons, normSq_cons, dotQ_cons, ih bs h]
      ring

/-- Cauchy–Schwarz for equal-length rational vectors. -/
theorem dotQ_sq_le (a b : List ℚ) (h : a.length = b.length) :
    dotQ a b ^ 2 ≤ normSq a * normSq b := by
  induction a generalizing b with
  | nil =>
    cases b with
    | nil => simp [dotQ, normSq]
    | cons y ys => simp at h
  | cons x xs ih =>
    cases b with
    | nil => simp at h
    | cons y ys =>
      simp only [List.length_cons, Nat.succ_inj] at h
      have hIH := ih ys h
      have hcross : 0 ≤ x ^ 2 * normSq ys + y ^ 2 * normSq xs - 2 * x * y * dotQ xs ys := by
        rw [← lagrange_aux x y xs ys h]; exact normSq_nonneg _
      simp only [dotQ_cons, normSq_cons]
      nlinarith [hIH, hcross]

theorem dotQ_self (a : List ℚ) : dotQ a a = normSq a := rfl

theorem dotQ_neg_right (a : List ℚ) :
    dotQ a (a.map (fun x => -x)) = -(normSq a) := by
  induction a with
  | nil => simp [dotQ, normSq]
  | cons x xs ih => simp only [List.map_cons, dotQ_cons, normSq_cons, ih]; ring

theorem normSq_neg (a : List ℚ) : normSq (a.map (fun x => -x)) = normSq a := by
  induction a with
  | nil => simp [normSq, dotQ]
  | cons x xs ih => simp only [List.map_cons, normSq_cons, ih]; ring

/-! ### Bridging the pair representation to real values -/

theorem cosineSimP_den_pos (a b : List ℚ) : 0 < (cosineSimP a b).2 := by
  unfold cosineSimP
  by_cases hdeg : degenerate a b
  · simp [hdeg]
  · simp only [hdeg, if_false]
    have ha : normSq a ≠ 0 := by
      intro h0
      apply hdeg
      simp [degenerate, h0]
    have hb : normSq b ≠ 0 := by
      intro h0
      apply hdeg
      simp [degenerate, h0]
    have ha' := lt_of_le_of_ne (normSq_nonneg a) (Ne.symm ha)
    have hb' := lt_of_le_of_ne (normSq_nonneg b) (Ne.symm hb)
    exact mul_pos ha' hb'

theorem sqrt_q_pos {S : ℚ} (hS : 0 < S) : 0 < Real.sqrt ((S : ℚ) : ℝ) := by
  rw [Real.sqrt_pos]; exact_mod_cast hS

theorem sq_sqrt_q {S : ℚ} (hS : 0 ≤ S) :
    Real.sqrt ((S : ℚ) : ℝ) * Real.sqrt ((S : ℚ) : ℝ) = ((S : ℚ) : ℝ) := by
  apply Real.mul_self_sqrt; exact_mod_cast hS

theorem neg_pow_two_eq (a : ℝ) : (-a) ^ 2 = a ^ 2 := by ring

theorem mul_sqrt_sq (x S : ℝ) (hS : 0 ≤ S) :
    (x * Real.sqrt S) ^ 2 = x ^ 2 * S := by
  rw [mul_pow, Real.sq_sqrt hS]

/-- `simGe` decides `t ≤ n/√S` when `S > 0`. -/
theorem simGe_iff (s : Sim) (t : ℚ) (hS : 0 < s.2) :
    simGe s t = true ↔ (t : ℝ) ≤ simVal s := by
  obtain ⟨n, S⟩ := s
  simp only at hS
  have hR : (0 : ℝ) < Real.sqrt ((S : ℚ) : ℝ) := sqrt_q_pos hS
  have hRR : Real.sqrt ((S : ℚ) : ℝ) * Real.sqrt ((S : ℚ) : ℝ) = ((S : ℚ) : ℝ) :=
    sq_sqrt_q hS.le
  rw [simVal, le_div_iff₀ hR]
  have hsq2 : (((t : ℚ) : ℝ) * Real.sqrt ((S : ℚ) : ℝ)) ^ 2 =
      ((t : ℚ) : ℝ) ^ 2 * ((S : ℚ) : ℝ) :=
    mul_sqrt_sq _ _ (by exact_mod_cast hS.le)
  set R := Real.sqrt ((S : ℚ) : ℝ) with hRdef
  simp only [simGe]
  by_cases hn : 0 ≤ n
  · have hn' : (0 : ℝ) ≤ ((n : ℚ) : ℝ) := by exact_mod_cast hn
    simp only [if_pos hn, Bool.or_eq_true, decide_eq_true_iff]
    by_cases ht : t ≤ 0
    · have ht' : ((t : ℚ) : ℝ) ≤ 0 := by exact_mod_cast ht
      have hle : ((t : ℚ) : ℝ) * R ≤ ((n : ℚ) : ℝ) :=
        le_trans (mul_nonpos_of_nonpos_of_nonneg ht' hR.le) hn'
      simp [ht, hle]
    · have ht0 : (0 : ℚ) < t := lt_of_not_le ht
      have ht' : (0 : ℝ) < ((t : ℚ) : ℝ) := by exact_mod_cast ht0
      have htR : (0 : ℝ) ≤ ((t : ℚ) : ℝ) * R := by positivity
      have hiff : ((t : ℚ) : ℝ) * R ≤ ((n : ℚ) : ℝ) ↔
          (((t : ℚ) : ℝ) * R) ^ 2 ≤ ((n : ℚ) : ℝ) ^ 2 :=
        (pow_le_pow_iff_left₀ htR hn' two_ne_zero).symm
      constructor
      · rintro (h | h)
        · exact absurd h ht
        · rw [hiff, hsq2]; exact_mod_cast h
      · intro h
        right
        rw [hiff, hsq2] at h
        exact_mod_cast h
  · have hn0 : n < 0 := lt_of_not_le hn
    have hn' : ((n : ℚ) : ℝ) < 0 := by exact_mod_cast hn0
    simp only [if_neg hn, Bool.and_eq_true, decide_eq_true_iff]
    by_cases ht : t < 0
    · have ht' : ((t : ℚ) : ℝ) < 0 := by exact_mod_cast ht
      have hnn : (0 : ℝ) ≤ -((n : ℚ) : ℝ) := by linarith
      have htRn : (0 : ℝ) ≤ -(((t : ℚ) : ℝ) * R) := by
        have heq : -(((t : ℚ) : ℝ) * R) = (-((t : ℚ) : ℝ)) * R := by ring
        rw [heq]; exact mul_nonneg (by linarith) hR.le
      have hiff : ((t : ℚ) : ℝ) * R ≤ ((n : ℚ) : ℝ) ↔
          (-((n : ℚ) : ℝ)) ^ 2 ≤ (-(((t : ℚ) : ℝ) * R)) ^ 2 :=
        ((pow_le_pow_iff_left₀ hnn htRn two_ne_zero).trans neg_le_neg_iff).symm
      have h2 : (-(((t : ℚ) : ℝ) * R)) ^ 2 = ((t : ℚ) : ℝ) ^ 2 * ((S : ℚ) : ℝ) := by
        rw [neg_pow_two_eq, hsq2]
      have h3 : (-((n : ℚ) : ℝ)) ^ 2 = ((n : ℚ) : ℝ) ^ 2 := neg_pow_two_eq _
      constructor
      · rintro ⟨-, h⟩
        rw [hiff, h2, h3]
        exact_mod_cast h
      · intro h
        refine ⟨ht, ?_⟩
        rw [hiff, h2, h3] at h
        exact_mod_cast h
    · have ht0 : (0 : ℚ) ≤ t := le_of_not_lt ht
      have ht' : (0 : ℝ) ≤ ((t : ℚ) : ℝ) := by exact_mod_cast ht0
      have hfalse : ¬ (((t : ℚ) : ℝ) * R ≤ ((n : ℚ) : ℝ)) := by
        have := mul_nonneg ht' hR.le
        linarith
      simp [ht, hfalse]

/-- `simGTb` decides strict comparison of two similarity values. -/
theorem simGTb_iff (s₁ s₂ : Sim) (h₁ : 0 < s₁.2) (h₂ : 0 < s₂.2) :
    simGTb s₁ s₂ = true ↔ simVal s₂ < simVal s₁ := by
  obtain ⟨n₁, S₁⟩ := s₁
  obtain ⟨n₂, S₂⟩ := s₂
  simp only at h₁ h₂
  have hR₁ : (0 : ℝ) < Real.sqrt ((S₁ : ℚ) : ℝ) := sqrt_q_pos h₁
  have hR₂ : (0 : ℝ) < Real.sqrt ((S₂ : ℚ) : ℝ) := sqrt_q_pos h₂
  have hRR₁ := sq_sqrt_q h₁.le
  have hRR₂ := sq_sqrt_q h₂.le
  rw [simVal, simVal, div_lt_div_iff₀ hR₂ hR₁]
  have hq1 : (((n₁ : ℚ) : ℝ) * Real.sqrt ((S₂ : ℚ) : ℝ)) ^ 2 =
      ((n₁ : ℚ) : ℝ) ^ 2 * ((S₂ : ℚ) : ℝ) :=
    mul_sqrt_sq _ _ (by exact_mod_cast h₂.le)
  have hq2 : (((n₂ : ℚ) : ℝ) * Real.sqrt ((S₁ : ℚ) : ℝ)) ^ 2 =
      ((n₂ : ℚ) : ℝ) ^ 2 * ((S₁ : ℚ) : ℝ) :=
    mul_sqrt_sq _ _ (by exact_mod_cast h₁.le)
  simp only [simGTb]
  by_cases hn₁ : 0 ≤ n₁
  · have hn₁' : (0 : ℝ) ≤ ((n₁ : ℚ) : ℝ) := by exact_mod_cast hn₁
    have hx₁ : (0 : ℝ) ≤ ((n₁ : ℚ) : ℝ) * Real.sqrt ((S₂ : ℚ) : ℝ) :=
      mul_nonneg hn₁' hR₂.le
    simp only [if_pos hn₁, Bool.or_eq_true, decide_eq_true_iff]
    by_cases hn₂ : n₂ < 0
    · have hn₂' : ((n₂ : ℚ) : ℝ) < 0 := by exact_mod_cast hn₂
      have hlt : ((n₂ : ℚ) : ℝ) * Real.sqrt ((S₁ : ℚ) : ℝ) <
          ((n₁ : ℚ) : ℝ) * Real.sqrt ((S₂ : ℚ) : ℝ) :=
        lt_of_lt_of_le (mul_neg_of_neg_of_pos hn₂' hR₁) hx₁
      simp [hn₂, hlt]
    · have hn₂0 : (0 : ℚ) ≤ n₂ := le_of_not_lt hn₂
      have hn₂' : (0 : ℝ) ≤ ((n₂ : ℚ) : ℝ) := by exact_mod_cast hn₂0
      have hx₂ : (0 : ℝ) ≤ ((n₂ : ℚ) : ℝ) * Real.sqrt ((S₁ : ℚ) : ℝ) :=
        mul_nonneg hn₂' hR₁.le
      have hiff : ((n₂ : ℚ) : ℝ) * Real.sqrt ((S₁ : ℚ) : ℝ) <
          ((n₁ : ℚ) : ℝ) * Real.sqrt ((S₂ : ℚ) : ℝ) ↔
          ((n₂ : ℚ) : ℝ) ^ 2 * ((S₁ : ℚ) : ℝ) < ((n₁ : ℚ) : ℝ) ^ 2 * ((S₂ : ℚ) : ℝ) := by
        rw [← hq1, ← hq2]
        exact (pow_lt_pow_iff_left₀ hx₂ hx₁ two_ne_zero).symm
      constructor
      · rintro (h | h)
        · exact absurd h hn₂
        · rw [hiff]; exact_mod_cast h
      · intro h
        right
        rw [hiff] at h
        exact_mod_cast h
  · have hn₁0 : n₁ < 0 := lt_of_not_le hn₁
    have hn₁' : ((n₁ : ℚ) : ℝ) < 0 := by exact_mod_cast hn₁0
    have hx₁ : ((n₁ : ℚ) : ℝ) * Real.sqrt ((S₂ : ℚ) : ℝ) < 0 :=
      mul_neg_of_neg_of_pos hn₁' hR₂
    simp only [if_neg hn₁, Bool.and_eq_true, decide_eq_true_iff]
    by_cases hn₂ : n₂ < 0
    · have hn₂' : ((n₂ : ℚ) : ℝ) < 0 := by exact_mod_cast hn₂
      have hx₂ : ((n₂ : ℚ) : ℝ) * Real.sqrt ((S₁ : ℚ) : ℝ) < 0 :=
        mul_neg_of_neg_of_pos hn₂' hR₁
      have h1 : (0 : ℝ) ≤ -(((n₁ : ℚ) : ℝ) * Real.sqrt ((S₂ : ℚ) : ℝ)) := by linarith
      have h2 : (0 : ℝ) ≤ -(((n₂ : ℚ) : ℝ) * Real.sqrt ((S₁ : ℚ) : ℝ)) := by linarith
      have hiff : ((n₂ : ℚ) : ℝ) * Real.sqrt ((S₁ : ℚ) : ℝ) <
          ((n₁ : ℚ) : ℝ) * Real.sqrt ((S₂ : ℚ) : ℝ) ↔
          ((n₁ : ℚ) : ℝ) ^ 2 * ((S₂ : ℚ) : ℝ) < ((n₂ : ℚ) : ℝ) ^ 2 * ((S₁ : ℚ) : ℝ) := by
        rw [← hq1, ← hq2, ← neg_pow_two_eq (((n₁ : ℚ) : ℝ) * Real.sqrt ((S₂ : ℚ) : ℝ)),
          ← neg_pow_two_eq (((n₂ : ℚ) : ℝ) * Real.sqrt ((S₁ : ℚ) : ℝ))]
        rw [pow_lt_pow_iff_left₀ h1 h2 two_ne_zero]
        constructor
        · intro h; linarith
        · intro h; linarith
      constructor
      · rintro ⟨-, h⟩
        rw [hiff]
        exact_mod_cast h
      · intro h
        refine ⟨hn₂, ?_⟩
        rw [hiff] at h
        exact_mod_cast h
    · have hn₂0 : (0 : ℚ) ≤ n₂ := le_of_not_lt hn₂
      have hn₂' : (0 : ℝ) ≤ ((n₂ : ℚ) : ℝ) := by exact_mod_cast hn₂0
      have hx₂ : (0 : ℝ) ≤ ((n₂ : ℚ) : ℝ) * Real.sqrt ((S₁ : ℚ) : ℝ) :=
        mul_nonneg hn₂' hR₁.le
      have hfalse : ¬ (((n₂ : ℚ) : ℝ) * Real.sqrt ((S₁ : ℚ) : ℝ) <
          ((n₁ : ℚ) : ℝ) * Real.sqrt ((S₂ : ℚ) : ℝ)) := by
        intro h
        linarith
      simp [hn₂, hfalse]

/-- `simEqb` implies equality of the denoted values. -/
theorem simEqb_val (s₁ s₂ : Sim) (h₁ : 0 < s₁.2) (h₂ : 0 < s₂.2)
    (h : simEqb s₁ s₂ = true) : simVal s₁ = simVal s₂ := by
  obtain ⟨n₁, S₁⟩ := s₁
  obtain ⟨n₂, S₂⟩ := s₂
  simp only at h₁ h₂
  have hR₁ : (0 : ℝ) < Real.sqrt ((S₁ : ℚ) : ℝ) := sqrt_q_pos h₁
  have hR₂ : (0 : ℝ) < Real.sqrt ((S₂ : ℚ) : ℝ) := sqrt_q_pos h₂
  have hRR₁ := sq_sqrt_q h₁.le
  have hRR₂ := sq_sqrt_q h₂.le
  simp only [simEqb, Bool.and_eq_true, decide_eq_true_iff, beq_iff_eq,
    decide_eq_decide] at h
  obtain ⟨hsgn, hsq⟩ := h
  rw [simVal, simVal, div_eq_div_iff hR₁.ne' hR₂.ne']
  have hsq' : ((n₁ : ℚ) : ℝ) ^ 2 * ((S₂ : ℚ) : ℝ) = ((n₂ : ℚ) : ℝ) ^ 2 * ((S₁ : ℚ) : ℝ) := by
    exact_mod_cast hsq
  have hq1 : (((n₁ : ℚ) : ℝ) * Real.sqrt ((S₂ : ℚ) : ℝ)) ^ 2 =
      ((n₁ : ℚ) : ℝ) ^ 2 * ((S₂ : ℚ) : ℝ) :=
    mul_sqrt_sq _ _ (by exact_mod_cast h₂.le)
  have hq2 : (((n₂ : ℚ) : ℝ) * Real.sqrt ((S₁ : ℚ) : ℝ)) ^ 2 =
      ((n₂ : ℚ) : ℝ) ^ 2 * ((S₁ : ℚ) : ℝ) :=
    mul_sqrt_sq _ _ (by exact_mod_cast h₁.le)
  by_cases hn₁ : 0 ≤ n₁
  · have hn₂ : 0 ≤ n₂ := hsgn.mp hn₁
    have hn₁' : (0 : ℝ) ≤ ((n₁ : ℚ) : ℝ) := by exact_mod_cast hn₁
    have hn₂' : (0 : ℝ) ≤ ((n₂ : ℚ) : ℝ) := by exact_mod_cast hn₂
    have hx₁ : (0 : ℝ) ≤ ((n₁ : ℚ) : ℝ) * Real.sqrt ((S₂ : ℚ) : ℝ) :=
      mul_nonneg hn₁' hR₂.le
    have hx₂ : (0 : ℝ) ≤ ((n₂ : ℚ) : ℝ) * Real.sqrt ((S₁ : ℚ) : ℝ) :=
      mul_nonneg hn₂' hR₁.le
    have hs : Real.sqrt ((((n₁ : ℚ) : ℝ) * Real.sqrt ((S₂ : ℚ) : ℝ)) ^ 2) =
        Real.sqrt ((((n₂ : ℚ) : ℝ) * Real.sqrt ((S₁ : ℚ) : ℝ)) ^ 2) := by
      rw [hq1, hq2, hsq']
    rwa [Real.sqrt_sq hx₁, Real.sqrt_sq hx₂] at hs
  · have hn₂ : ¬ 0 ≤ n₂ := fun h => hn₁ (hsgn.mpr h)
    have hn₁' : ((n₁ : ℚ) : ℝ) < 0 := by
      have h0 : n₁ < 0 := lt_of_not_le hn₁
      exact_mod_cast h0
    have hn₂' : ((n₂ : ℚ) : ℝ) < 0 := by
      have h0 : n₂ < 0 := lt_of_not_le hn₂
      exact_mod_cast h0
    have hx₁ : (0 : ℝ) ≤ -(((n₁ : ℚ) : ℝ) * Real.sqrt ((S₂ : ℚ) : ℝ)) := by
      have := mul_neg_of_neg_of_pos hn₁' hR₂
      linarith
    have hx₂ : (0 : ℝ) ≤ -(((n₂ : ℚ) : ℝ) * Real.sqrt ((S₁ : ℚ) : ℝ)) := by
      have := mul_neg_of_neg_of_pos hn₂' hR₁
      linarith
    have hs : Real.sqrt ((-(((n₁ : ℚ) : ℝ) * Real.sqrt ((S₂ : ℚ) : ℝ))) ^ 2) =
        Real.sqrt ((-(((n₂ : ℚ) : ℝ) * Real.sqrt ((S₁ : ℚ) : ℝ))) ^ 2) := by
      rw [neg_pow_two_eq, neg_pow_two_eq, hq1, hq2, hsq']
    rw [Real.sqrt_sq hx₁, Real.sqrt_sq hx₂] at hs
    linarith

theorem degenerate_iff (a b : List ℚ) :
    degenerate a b = true ↔
      a = [] ∨ b = [] ∨ a.length ≠ b.length ∨ normSq a = 0 ∨ normSq b = 0 := by
  simp only [degenerate, Bool.or_eq_true, decide_eq_true_iff, List.isEmpty_iff]
  tauto

theorem of_degenerate_eq_false (a b : List ℚ) (h : degenerate a b = false) :
    a ≠ [] ∧ b ≠ [] ∧ a.length = b.length ∧ normSq a ≠ 0 ∧ normSq b ≠ 0 := by
  have h' : ¬ (degenerate a b = true) := by simp [h]
  rw [degenerate_iff] at h'
  push_neg at h'
  exact h'

theorem magnitude_pos {a : List ℚ} (h : 0 < normSq a) : 0 < magnitude a := by
  simp only [magnitude]
  exact sqrt_q_pos h

theorem magnitude_sq {a : List ℚ} (h : 0 ≤ normSq a) :
    magnitude a * magnitude a = ((normSq a : ℚ) : ℝ) := by
  simp only [magnitude]
  exact sq_sqrt_q h

/-- The cosine similarity always lies in `[-1, 1]` (Cauchy–Schwarz). -/
theorem cosine_bounds (a b : List ℚ) :
    -1 ≤ CosineSimilarity a b ∧ CosineSimilarity a b ≤ 1 := by
  unfold CosineSimilarity
  by_cases h : degenerate a b
  · rw [if_pos h]
    norm_num
  · rw [if_neg h]
    have h' : degenerate a b = false := by
      cases hdb : degenerate a b
      · rfl
      · exact absurd hdb h
    obtain ⟨-, -, hlen, hna, hnb⟩ := of_degenerate_eq_false a b h'
    have ha' : 0 < normSq a := lt_of_le_of_ne (normSq_nonneg a) (Ne.symm hna)
    have hb' : 0 < normSq b := lt_of_le_of_ne (normSq_nonneg b) (Ne.symm hnb)
    have hcs : dotQ a b ^ 2 ≤ normSq a * normSq b := dotQ_sq_le a b hlen
    have hD : 0 < magnitude a * magnitude b := mul_pos (magnitude_pos ha') (magnitude_pos hb')
    have hD2 : (magnitude a * magnitude b) ^ 2 =
        ((normSq a : ℚ) : ℝ) * ((normSq b : ℚ) : ℝ) := by
      rw [mul_pow, pow_two, pow_two, magnitude_sq ha'.le, magnitude_sq hb'.le]
    have h1 : ((dotQ a b : ℚ) : ℝ) ^ 2 ≤ (magnitude a * magnitude b) ^ 2 := by
      rw [hD2]
      exact_mod_cast hcs
    have habs : |((dotQ a b : ℚ) : ℝ)| ≤ magnitude a * magnitude b := by
      rw [← sq_abs] at h1
      exact (pow_le_pow_iff_left₀ (abs_nonneg _) hD.le two_ne_zero).mp h1
    obtain ⟨hlo, hhi⟩ := abs_le.mp habs
    constructor
    · rw [le_div_iff₀ hD]
      linarith
    · rw [div_le_one hD]
      exact hhi

theorem degenerate_self_eq_false {v : List ℚ} (h : normSq v ≠ 0) :
    degenerate v v = false := by
  have hv : v ≠ [] := normSq_ne_zero_of_ne v h
  cases hdb : degenerate v v
  · rfl
  · rw [degenerate_iff] at hdb
    rcases hdb with h1 | h1 | h1 | h1 | h1 <;> first
      | exact absurd h1 hv
      | exact absurd h1 h
      | exact absurd rfl h1

/-- `cosine(v, v) = 1` for a vector of nonzero magnitude. -/
theorem cosine_self {v : List ℚ} (h : normSq v ≠ 0) : CosineSimilarity v v = 1 := by
  have hdeg := degenerate_self_eq_false h
  unfold CosineSimilarity
  rw [if_neg (by simp [hdeg])]
  rw [dotQ_self]
  have h' : 0 < normSq v := lt_of_le_of_ne (normSq_nonneg v) (Ne.symm h)
  rw [magnitude_sq h'.le]
  rw [div_self]
  exact_mod_cast h

theorem degenerate_neg_eq_false {v : List ℚ} (h : normSq v ≠ 0) :
    degenerate v (v.map (fun x => -x)) = false := by
  have hv : v ≠ [] := normSq_ne_zero_of_ne v h
  cases hdb : degenerate v (v.map (fun x => -x))
  · rfl
  · rw [degenerate_iff] at hdb
    rcases hdb with h1 | h1 | h1 | h1 | h1
    · exact absurd h1 hv
    · exact absurd (List.map_eq_nil_iff.mp h1) hv
    · exact absurd (List.length_map v _).symm h1
    · exact absurd h1 h
    · rw [normSq_neg] at h1
      exact absurd h1 h

/-- `cosine(v, -v) = -1` for a vector of nonzero magnitude. -/
theorem cosine_neg_self {v : List ℚ} (h : normSq v ≠ 0) :
    CosineSimilarity v (v.map (fun x => -x)) = -1 := by
  have hdeg := degenerate_neg_eq_false h
  unfold CosineSimilarity
  rw [if_neg (by simp [hdeg])]
  have hmag : magnitude (v.map (fun x => -x)) = magnitude v := by
    simp only [magnitude, normSq_neg]
  rw [hmag, dotQ_neg_right]
  have h' : 0 < normSq v := lt_of_le_of_ne (normSq_nonneg v) (Ne.symm h)
  rw [magnitude_sq h'.le]
  rw [Rat.cast_neg, neg_div, div_self]
  exact_mod_cast h

/-- The pair-valued and real-valued cosine similarity agree. -/
theorem simVal_cosineSimP (a b : List ℚ) :
    simVal (cosineSimP a b) = CosineSimilarity a b := by
  unfold cosineSimP CosineSimilarity
  by_cases hdeg : degenerate a b
  · simp [hdeg, simVal]
  · have ha : normSq a ≠ 0 := by intro h0; exact hdeg (by simp [degenerate, h0])
    have ha' := lt_of_le_of_ne (normSq_nonneg a) (Ne.symm ha)
    rw [if_neg hdeg, if_neg hdeg, simVal, magnitude, magnitude]
    congr 1
    rw [Rat.cast_mul, Real.sqrt_mul (by exact_mod_cast ha'.le)]

/-! ### The `Get` scan -/

theorem scanStep_expired (now : ℤ) (q : List ℚ) (acc : Option (CacheEntry × Sim))
    (e : CacheEntry) (h : e.expiresAt ≤ now) : scanStep now q acc e = acc := by
  unfold scanStep
  rw [if_pos h]

theorem scanStep_none (now : ℤ) (q : List ℚ) (e : CacheEntry) (h : ¬ e.expiresAt ≤ now) :
    scanStep now q none e = some (e, cosineSimP q e.embedding) := by
  unfold scanStep
  rw [if_neg h]

theorem scanStep_replace (now : ℤ) (q : List ℚ) (p : CacheEntry × Sim) (e : CacheEntry)
    (h : ¬ e.expiresAt ≤ now)
    (ht : (simGTb (cosineSimP q e.embedding) p.2 ||
      (simEqb (cosineSimP q e.embedding) p.2 && decide (p.1.lastHitAt < e.lastHitAt))) = true) :
    scanStep now q (some p) e = some (e, cosineSimP q e.embedding) := by
  obtain ⟨be, bs⟩ := p
  unfold scanStep
  rw [if_neg h]
  simp only at ht
  simp [ht]

theorem scanStep_keep (now : ℤ) (q : List ℚ) (p : CacheEntry × Sim) (e : CacheEntry)
    (h : ¬ e.expiresAt ≤ now)
    (ht : (simGTb (cosineSimP q e.embedding) p.2 ||
      (simEqb (cosineSimP q e.embedding) p.2 && decide (p.1.lastHitAt < e.lastHitAt))) = false) :
    scanStep now q (some p) e = some p := by
  obtain ⟨be, bs⟩ := p
  unfold scanStep
  rw [if_neg h]
  simp only at ht
  simp [ht]

/-- One scan step either keeps the accumulator or installs the (live) current
entry with its similarity. -/
theorem scanStep_cases (now : ℤ) (q : List ℚ) (acc : Option (CacheEntry × Sim))
    (e : CacheEntry) :
    scanStep now q acc e = acc ∨
      (scanStep now q acc e = some (e, cosineSimP q e.embedding) ∧ now < e.expiresAt) := by
  by_cases h : e.expiresAt ≤ now
  · exact Or.inl (scanStep_expired now q acc e h)
  · have hlive : now < e.expiresAt := lt_of_not_le h
    match acc with
    | none => exact Or.inr ⟨scanStep_none now q e h, hlive⟩
    | some p =>
      cases ht : (simGTb (cosineSimP q e.embedding) p.2 ||
          (simEqb (cosineSimP q e.embedding) p.2 && decide (p.1.lastHitAt < e.lastHitAt)))
      · exact Or.inl (scanStep_keep now q p e h ht)
      · exact Or.inr ⟨scanStep_replace now q p e h ht, hlive⟩

/-- The scan result is either the initial accumulator or a live entry of the
list paired with its similarity. -/
theorem scanFold_form (now : ℤ) (q : List ℚ) :
    ∀ (l : List CacheEntry) (acc : Option (CacheEntry × Sim)),
      l.foldl (scanStep now q) acc = acc ∨
        ∃ e, l.foldl (scanStep now q) acc = some (e, cosineSimP q e.embedding) ∧
          e ∈ l ∧ now < e.expiresAt := by
  intro l
  induction l with
  | nil => intro acc; exact Or.inl rfl
  | cons x xs ih =>
    intro acc
    rw [List.foldl_cons]
    rcases scanStep_cases now q acc x with hk | ⟨hk, hlive⟩
    · rw [hk]
      rcases ih acc with h | ⟨e, h, hmem, hl⟩
      · exact Or.inl h
      · exact Or.inr ⟨e, h, List.mem_cons_of_mem x hmem, hl⟩
    · rw [hk]
      rcases ih (some (x, cosineSimP q x.embedding)) with h | ⟨e, h, hmem, hl⟩
      · exact Or.inr ⟨x, h, List.mem_cons_self x xs, hlive⟩
      · exact Or.inr ⟨e, h, List.mem_cons_of_mem x hmem, hl⟩

/-- Along the scan, the accumulated best similarity never decreases. -/
theorem scanFold_mono (now : ℤ) (q : List ℚ) :
    ∀ (l : List CacheEntry) (p : CacheEntry × Sim), 0 < p.2.2 →
      ∃ p', l.foldl (scanStep now q) (some p) = some p' ∧ 0 < p'.2.2 ∧
        simVal p.2 ≤ simVal p'.2 := by
  intro l
  induction l with
  | nil => intro p hp; exact ⟨p, rfl, hp, le_refl _⟩
  | cons x xs ih =>
    intro p hp
    rw [List.foldl_cons]
    by_cases h : x.expiresAt ≤ now
    · rw [scanStep_expired now q _ x h]
      exact ih p hp
    · have hspos : 0 < (cosineSimP q x.embedding).2 := cosineSimP_den_pos q x.embedding
      cases ht : (simGTb (cosineSimP q x.embedding) p.2 ||
          (simEqb (cosineSimP q x.embedding) p.2 && decide (p.1.lastHitAt < x.lastHitAt)))
      · rw [scanStep_keep now q p x h ht]
        exact ih p hp
      · rw [scanStep_replace now q p x h ht]
        have hle : simVal p.2 ≤ simVal (cosineSimP q x.embedding) := by
          rcases Bool.or_eq_true_iff.mp ht with hgt | heq
          · exact le_of_lt ((simGTb_iff _ _ hspos hp).mp hgt)
          · have heq' := (Bool.and_eq_true _ _).mp heq
            exact le_of_eq (simEqb_val _ _ hspos hp heq'.1).symm
        obtain ⟨p', hfold, hp', hmono⟩ := ih (x, cosineSimP q x.embedding) hspos
        exact ⟨p', hfold, hp', le_trans hle hmono⟩

/-- The scan result dominates the similarity of every live entry of the
list. -/
theorem scanFold_dominates (now : ℤ) (q : List ℚ) :
    ∀ (l : List CacheEntry) (acc : Option (CacheEntry × Sim)),
      (∀ p, acc = some p → 0 < p.2.2) →
      ∀ x ∈ l, now < x.expiresAt →
      ∃ p', l.foldl (scanStep now q) acc = some p' ∧ 0 < p'.2.2 ∧
        simVal (cosineSimP q x.embedding) ≤ simVal p'.2 := by
  intro l
  induction l with
  | nil => intro acc haccOK x hx; exact absurd hx (List.not_mem_nil x)
  | cons y ys ih =>
    intro acc haccOK x hx hxlive
    rw [List.foldl_cons]
    have haccOK' : ∀ p, scanStep now q acc y = some p → 0 < p.2.2 := by
      intro p hp
      rcases scanStep_cases now q acc y with hk | ⟨hk, -⟩
      · exact haccOK p (hk ▸ hp)
      · rw [hk] at hp
        cases hp
        exact cosineSimP_den_pos q y.embedding
    rcases List.mem_cons.mp hx with rfl | hmem
    · -- the target entry is the head; it is live, so the new accumulator
      -- already dominates it
      have hxexp : ¬ x.expiresAt ≤ now := not_le_of_lt hxlive
      have hstep : ∃ p₀, scanStep now q acc x = some p₀ ∧ 0 < p₀.2.2 ∧
          simVal (cosineSimP q x.embedding) ≤ simVal p₀.2 := by
        match acc with
        | none =>
          exact ⟨(x, cosineSimP q x.embedding), scanStep_none now q x hxexp,
            cosineSimP_den_pos q x.embedding, le_refl _⟩
        | some p =>
          have hppos : 0 < p.2.2 := haccOK p rfl
          have hspos : 0 < (cosineSimP q x.embedding).2 := cosineSimP_den_pos q x.embedding
          cases ht : (simGTb (cosineSimP q x.embedding) p.2 ||
              (simEqb (cosineSimP q x.embedding) p.2 && decide (p.1.lastHitAt < x.lastHitAt)))
          · refine ⟨p, scanStep_keep now q p x hxexp ht, hppos, ?_⟩
            have hngt : simGTb (cosineSimP q x.embedding) p.2 = false := by
              cases hgt : simGTb (cosineSimP q x.embedding) p.2
              · rfl
              · rw [hgt] at ht
                simp at ht
            have := (simGTb_iff (cosineSimP q x.embedding) p.2 hspos hppos)
            rw [hngt] at this
            have hnot : ¬ simVal p.2 < simVal (cosineSimP q x.embedding) := by
              intro hcon
              exact absurd (this.mpr hcon) (by simp)
            exact le_of_not_lt hnot
          · exact ⟨(x, cosineSimP q x.embedding), scanStep_replace now q p x hxexp ht,
              cosineSimP_den_pos q x.embedding, le_refl _⟩
      obtain ⟨p₀, hstep_eq, hp₀, hdom⟩ := hstep
      rw [hstep_eq]
      obtain ⟨p', hfold, hp', hmono⟩ := scanFold_mono now q ys p₀ hp₀
      exact ⟨p', hfold, hp', le_trans hdom hmono⟩
    · exact ih (scanStep now q acc y) haccOK' x hmem hxlive

/-- Full characterisation of `Get`: it returns a (live, stored) entry iff
some live entry meets the threshold, and any returned entry attains the
maximum similarity over live entries. -/
theorem get_characterization (c : MemoryCache) (now : ℤ) (q : List ℚ) (t : ℚ) :
    ((∃ e s, (c.get now q t).1 = some (e, s)) ↔
      ∃ e, e ∈ c.entries ∧ now < e.expiresAt ∧ (t : ℝ) ≤ CosineSimilarity q e.embedding) ∧
    (∀ e s, (c.get now q t).1 = some (e, s) →
      e ∈ c.entries ∧ now < e.expiresAt ∧
      simVal s = CosineSimilarity q e.embedding ∧ (t : ℝ) ≤ simVal s ∧
      ∀ u ∈ c.entries, now < u.expiresAt → CosineSimilarity q u.embedding ≤ simVal s) := by
  cases hscan : scanBest now q c.entries with
  | none =>
    have hget : (c.get now q t).1 = none := by
      simp only [MemoryCache.get, hscan]
    constructor
    · constructor
      · rintro ⟨e, s, h⟩
        rw [hget] at h
        cases h
      · rintro ⟨e, hmem, hlive, -⟩
        obtain ⟨p', hfold, -, -⟩ :=
          scanFold_dominates now q c.entries none (by rintro p ⟨⟩) e hmem hlive
        rw [scanBest] at hscan
        rw [hscan] at hfold
        cases hfold
    · intro e s h
      rw [hget] at h
      cases h
  | some p =>
    obtain ⟨e₀, s₀⟩ := p
    have hgood : e₀ ∈ c.entries ∧ now < e₀.expiresAt ∧
        s₀ = cosineSimP q e₀.embedding := by
      rcases scanFold_form now q c.entries none with h | ⟨e, h, hmem, hl⟩
      · rw [scanBest] at hscan
        rw [hscan] at h
        cases h
      · rw [scanBest] at hscan
        rw [hscan] at h
        cases h
        exact ⟨hmem, hl, rfl⟩
    obtain ⟨hmem₀, hlive₀, hs₀⟩ := hgood
    have hpos₀ : 0 < s₀.2 := hs₀ ▸ cosineSimP_den_pos q e₀.embedding
    have hval₀ : simVal s₀ = CosineSimilarity q e₀.embedding := by
      rw [hs₀, simVal_cosineSimP]
    have hdom : ∀ u ∈ c.entries, now < u.expiresAt →
        CosineSimilarity q u.embedding ≤ simVal s₀ := by
      intro u humem hulive
      obtain ⟨p', hfold, -, hle⟩ :=
        scanFold_dominates now q c.entries none (by rintro p ⟨⟩) u humem hulive
      rw [scanBest] at hscan
      rw [hscan] at hfold
      cases hfold
      rw [simVal_cosineSimP] at hle
      exact hle
    by_cases hth : simGe s₀ t
    · have hget : (c.get now q t).1 = some (e₀, s₀) := by
        simp only [MemoryCache.get, hscan, hth, if_true]
      constructor
      · constructor
        · intro h
          refine ⟨e₀, hmem₀, hlive₀, ?_⟩
          rw [← hval₀]
          exact (simGe_iff s₀ t hpos₀).mp hth
        · intro h
          exact ⟨e₀, s₀, hget⟩
      · intro e s h
        rw [hget] at h
        cases h
        exact ⟨hmem₀, hlive₀, hval₀, (simGe_iff s₀ t hpos₀).mp hth, hdom⟩
    · have hget : (c.get now q t).1 = none := by
        simp only [MemoryCache.get, hscan]
        rw [if_neg hth]
      constructor
      · constructor
        · rintro ⟨e, s, h⟩
          rw [hget] at h
          cases h
        · rintro ⟨u, humem, hulive, hut⟩
          exfalso
          have h1 := hdom u humem hulive
          have h2 : (t : ℝ) ≤ simVal s₀ := le_trans hut h1
          exact hth ((simGe_iff s₀ t hpos₀).mpr h2)
      · intro e s h
        rw [hget] at h
        cases h

/-! ### `Set` lemmas -/

theorem set_opts (c : MemoryCache) (e : CacheEntry) : (c.set e).opts = c.opts := by
  unfold MemoryCache.set
  by_cases h : c.entries.any (fun u => decide (u.embedding = e.embedding))
  · rw [if_pos h]
  · rw [if_neg h]

theorem set_mem_self (c : MemoryCache) (e : CacheEntry) : e ∈ (c.set e).entries := by
  unfold MemoryCache.set
  by_cases h : c.entries.any (fun u => decide (u.embedding = e.embedding))
  · rw [if_pos h]
    obtain ⟨u, humem, hueq⟩ := List.any_eq_true.mp h
    have hueq' : u.embedding = e.embedding := of_decide_eq_true hueq
    exact List.mem_map.mpr ⟨u, humem, by rw [if_pos hueq']⟩
  · rw [if_neg h]
    exact List.mem_append_right _ (List.mem_singleton.mpr rfl)

theorem evictLRU_length {l : List CacheEntry} (h : l ≠ []) :
    (evictLRU l).length + 1 = l.length := by
  unfold evictLRU
  cases hm : (l.map (fun u => u.lastHitAt)).min? with
  | none =>
    rw [List.min?_eq_none_iff] at hm
    exact absurd (List.map_eq_nil_iff.mp hm) h
  | some m =>
    have hmem : m ∈ l.map (fun u => u.lastHitAt) :=
      List.min?_mem (fun a b => min_choice a b) hm
    obtain ⟨u, humem, hum⟩ := List.mem_map.mp hmem
    exact List.length_eraseP_add_one humem (decide_eq_true hum)

theorem set_length_le (c : MemoryCache) (e : CacheEntry) (hmax : 1 ≤ c.opts.maxSize)
    (hlen : c.entries.length ≤ c.opts.maxSize) :
    (c.set e).entries.length ≤ c.opts.maxSize := by
  unfold MemoryCache.set
  by_cases h : c.entries.any (fun u => decide (u.embedding = e.embedding))
  · rw [if_pos h]
    simpa using hlen
  · rw [if_neg h]
    by_cases hfull : c.opts.maxSize ≤ c.entries.length
    · have hne : c.entries ≠ [] := by
        intro h0
        rw [h0] at hfull
        simp at hfull
        omega
      simp only [if_pos hfull, List.length_append, List.length_singleton]
      have := evictLRU_length hne
      omega
    · simp only [if_neg hfull, List.length_append, List.length_singleton]
      omega

theorem foldSets_opts (l : List CacheEntry) (c : MemoryCache) :
    (foldSets l c).opts = c.opts := by
  induction l generalizing c with
  | nil => rfl
  | cons x xs ih =>
    rw [foldSets, List.foldl_cons, ← foldSets]
    rw [ih (c.set x), set_opts]

theorem foldSets_length (l : List CacheEntry) (c : MemoryCache)
    (hmax : 1 ≤ c.opts.maxSize) (hlen : c.entries.length ≤ c.opts.maxSize) :
    (foldSets l c).entries.length ≤ c.opts.maxSize := by
  induction l generalizing c with
  | nil => exact hlen
  | cons x xs ih =>
    rw [foldSets, List.foldl_cons, ← foldSets]
    have h1 := set_length_le c x hmax hlen
    have h2 : (c.set x).opts = c.opts := set_opts c x
    have := ih (c.set x) (h2 ▸ hmax) (h2 ▸ h1)
    rw [h2] at this
    exact this

theorem set_of_absent (c : MemoryCache) (e : CacheEntry)
    (h : ∀ u ∈ c.entries, u.embedding ≠ e.embedding)
    (hroom : c.entries.length < c.opts.maxSize) :
    (c.set e).entries = c.entries ++ [e] := by
  unfold MemoryCache.set
  have hany : ¬ c.entries.any (fun u => decide (u.embedding = e.embedding)) = true := by
    rw [List.any_eq_true]
    rintro ⟨u, humem, hueq⟩
    exact h u humem (of_decide_eq_true hueq)
  rw [if_neg hany]
  have hnotfull : ¬ c.opts.maxSize ≤ c.entries.length := by omega
  simp only [if_neg hnotfull]

theorem set_of_present (c : MemoryCache) (e : CacheEntry)
    (h : ∃ u ∈ c.entries, u.embedding = e.embedding) :
    (c.set e).entries =
      c.entries.map (fun u => if u.embedding = e.embedding then e else u) := by
  unfold MemoryCache.set
  have hany : c.entries.any (fun u => decide (u.embedding = e.embedding)) = true := by
    rw [List.any_eq_true]
    obtain ⟨u, humem, hueq⟩ := h
    exact ⟨u, humem, decide_eq_true hueq⟩
  rw [if_pos hany]

/-- Replacing an existing identifier changes neither the length nor the key
list of the store. -/
theorem set_replace_keys (c : MemoryCache) (e : CacheEntry)
    (h : ∃ u ∈ c.entries, u.embedding = e.embedding) :
    (c.set e).entries.length = c.entries.length ∧
    (c.set e).entries.map (fun u => u.embedding) =
      c.entries.map (fun u => u.embedding) := by
  rw [set_of_present c e h]
  constructor
  · exact List.length_map _ _
  · rw [List.map_map]
    apply List.map_congr_left
    intro u humem
    by_cases hu : u.embedding = e.embedding
    · simp only [Function.comp_apply, if_pos hu]
      exact hu.symm
    · simp only [Function.comp_apply, if_neg hu]

/-- Inserting a fresh identifier at capacity first evicts an entry whose
`last_hit_at` is minimal. -/
theorem set_evicts (c : MemoryCache) (e : CacheEntry)
    (hkeys : (c.entries.map (fun u => u.embedding)).Nodup)
    (hfull : c.entries.length = c.opts.maxSize) (hmax : 1 ≤ c.opts.maxSize)
    (hnew : ∀ u ∈ c.entries, u.embedding ≠ e.embedding) :
    ∃ victim ∈ c.entries,
      (∀ u ∈ c.entries, victim.lastHitAt ≤ u.lastHitAt) ∧
      (c.set e).entries.length = c.opts.maxSize ∧
      e ∈ (c.set e).entries ∧
      ∀ u ∈ (c.set e).entries, u.embedding ≠ victim.embedding := by
  have hne : c.entries ≠ [] := by
    intro h0
    rw [h0] at hfull
    simp at hfull
    omega
  have hany : ¬ c.entries.any (fun u => decide (u.embedding = e.embedding)) = true := by
    rw [List.any_eq_true]
    rintro ⟨u, humem, hueq⟩
    exact hnew u humem (of_decide_eq_true hueq)
  have hsetform : (c.set e).entries = evictLRU c.entries ++ [e] := by
    unfold MemoryCache.set
    rw [if_neg hany]
    simp only [if_pos (le_of_eq hfull.symm)]
  cases hm : (c.entries.map (fun u => u.lastHitAt)).min? with
  | none =>
    rw [List.min?_eq_none_iff] at hm
    exact absurd (List.map_eq_nil_iff.mp hm) hne
  | some m =>
    have hmmem : m ∈ c.entries.map (fun u => u.lastHitAt) :=
      List.min?_mem (fun a b => min_choice a b) hm
    obtain ⟨u₀, hu₀mem, hu₀m⟩ := List.mem_map.mp hmmem
    have hminimal : ∀ b ∈ c.entries.map (fun u => u.lastHitAt), m ≤ b :=
      (List.le_min?_iff (fun a b c => le_min_iff) hm).mp (le_refl m)
    obtain ⟨victim, l₁, l₂, hl₁, hpv, hdecomp, herase⟩ :=
      @List.exists_of_eraseP CacheEntry (fun u => decide (u.lastHitAt = m)) c.entries u₀
        hu₀mem (decide_eq_true hu₀m)
    have hvm : victim.lastHitAt = m := of_decide_eq_true hpv
    have hvmem : victim ∈ c.entries := by
      rw [hdecomp]
      exact List.mem_append_right _ (List.mem_cons_self _ _)
    refine ⟨victim, hvmem, ?_, ?_, ?_, ?_⟩
    · intro u humem
      rw [hvm]
      exact hminimal _ (List.mem_map.mpr ⟨u, humem, rfl⟩)
    · rw [hsetform]
      have hlen : (evictLRU c.entries).length + 1 = c.entries.length := evictLRU_length hne
      simp only [List.length_append, List.length_singleton]
      omega
    · rw [hsetform]
      exact List.mem_append_right _ (List.mem_singleton.mpr rfl)
    · rw [hsetform]
      have hkeys' := hkeys
      rw [hdecomp] at hkeys'
      rw [List.map_append, List.map_cons] at hkeys'
      have herase' : evictLRU c.entries = l₁ ++ l₂ := by
        unfold evictLRU
        rw [hm]
        exact herase
      intro u humem
      rcases List.mem_append.mp humem with hu | hu
      · rw [herase'] at hu
        rcases List.mem_append.mp hu with hu1 | hu2
        · have hdisj := (List.nodup_append.mp hkeys').2.2
          intro hcon
          exact hdisj (List.mem_map.mpr ⟨u, hu1, rfl⟩)
            (by rw [hcon]; exact List.mem_cons_self _ _)
        · have hnd2 := (List.nodup_append.mp hkeys').2.1
          have hnotm : victim.embedding ∉ l₂.map (fun u => u.embedding) :=
            (List.nodup_cons.mp hnd2).1
          intro hcon
          exact hnotm (hcon ▸ List.mem_map.mpr ⟨u, hu2, rfl⟩)
      · have hue : u = e := List.mem_singleton.mp hu
        subst hue
        intro hcon
        exact hnew victim hvmem hcon.symm

/-- C4: `CosineSimilarity(a,b)` equals the dot product of `a` and `b` divided
by the product of their magnitudes and lies in `[-1, 1]`; it is 1 for any
non-zero vector against itself and -1 for a non-zero vector against its
negation; it returns 0 when either input is empty, when the two lengths
differ, or when either vector has zero magnitude. -/
theorem cosineSimilarity_spec :
    (∀ a b : List ℚ, degenerate a b = false →
        CosineSimilarity a b = ((dotQ a b : ℚ) : ℝ) / (magnitude a * magnitude b)) ∧
    (∀ a b : List ℚ, -1 ≤ CosineSimilarity a b ∧ CosineSimilarity a b ≤ 1) ∧
    (∀ v : List ℚ, normSq v ≠ 0 → CosineSimilarity v v = 1) ∧
    (∀ v : List ℚ, normSq v ≠ 0 → CosineSimilarity v (v.map (fun x => -x)) = -1) ∧
    (∀ a b : List ℚ,
        (a = [] ∨ b = [] ∨ a.length ≠ b.length ∨ normSq a = 0 ∨ normSq b = 0) →
        CosineSimilarity a b = 0) := by
  refine ⟨?_, cosine_bounds, fun v h => cosine_self h, fun v h => cosine_neg_self h, ?_⟩
  · intro a b h
    unfold CosineSimilarity
    rw [if_neg (by simp [h])]
  · intro a b h
    unfold CosineSimilarity
    rw [if_pos ((degenerate_iff a b).mpr h)]

/-- Witness for C4 at the concrete vector `[1, 2]`. -/
theorem cosineSimilarity_spec_witness :
    normSq [(1 : ℚ), 2] ≠ 0 ∧ CosineSimilarity [(1 : ℚ), 2] [(1 : ℚ), 2] = 1 :=
  ⟨by norm_num [normSq, dotQ], cosineSimilarity_spec.2.2.1 _ (by norm_num [normSq, dotQ])⟩

/-! ### Collector: the request ring and counters -/

theorem recordRequest_totalRequests (c : Collector) (r : RecordCall) :
    (c.recordRequest r).totalRequests = c.totalRequests + 1 := by
  unfold Collector.recordRequest Collector.rotateWindow
  dsimp only
  split_ifs <;> rfl

theorem recordRequest_totalHits_hit (c : Collector) (r : RecordCall)
    (h : r.cacheHit = true) : (c.recordRequest r).totalHits = c.totalHits + 1 := by
  unfold Collector.recordRequest Collector.rotateWindow
  dsimp only
  split_ifs <;> first | rfl | simp_all

theorem recordRequest_totalHits_miss (c : Collector) (r : RecordCall)
    (h : r.cacheHit = false) : (c.recordRequest r).totalHits = c.totalHits := by
  unfold Collector.recordRequest Collector.rotateWindow
  dsimp only
  split_ifs <;> first | rfl | simp_all

theorem recordRequest_maxRequests (c : Collector) (r : RecordCall) :
    (c.recordRequest r).maxRequests = c.maxRequests := by
  unfold Collector.recordRequest Collector.rotateWindow
  dsimp only
  split_ifs <;> rfl

theorem recordRequest_fill (c : Collector) (r : RecordCall)
    (h : c.requests.length < c.maxRequests) :
    (c.recordRequest r).requests = c.requests ++ [metricOf r] ∧
    (c.recordRequest r).requestIdx = c.requestIdx := by
  unfold Collector.recordRequest Collector.rotateWindow metricOf
  dsimp only
  split_ifs <;> first | exact ⟨rfl, rfl⟩ | (exfalso; omega)

theorem recordRequest_wrap (c : Collector) (r : RecordCall)
    (h : ¬ c.requests.length < c.maxRequests) :
    (c.recordRequest r).requests = c.requests.set c.requestIdx (metricOf r) ∧
    (c.recordRequest r).requestIdx = (c.requestIdx + 1) % c.maxRequests := by
  unfold Collector.recordRequest Collector.rotateWindow metricOf
  dsimp only
  split_ifs <;> first | exact ⟨rfl, rfl⟩ | (exfalso; omega)

theorem recordRequest_length (c : Collector) (r : RecordCall) :
    (c.recordRequest r).requests.length =
      if c.requests.length < c.maxRequests then c.requests.length + 1
      else c.requests.length := by
  by_cases h : c.requests.length < c.maxRequests
  · rw [if_pos h, (recordRequest_fill c r h).1]
    simp
  · rw [if_neg h, (recordRequest_wrap c r h).1]
    simp

theorem foldRecords_maxRequests (l : List RecordCall) (c : Collector) :
    (foldRecords l c).maxRequests = c.maxRequests := by
  induction l generalizing c with
  | nil => rfl
  | cons x xs ih =>
    rw [foldRecords, List.foldl_cons, ← foldRecords, ih, recordRequest_maxRequests]

theorem foldRecords_totalRequests (l : List RecordCall) (c : Collector) :
    (foldRecords l c).totalRequests = c.totalRequests + l.length := by
  induction l generalizing c with
  | nil => simp [foldRecords]
  | cons x xs ih =>
    rw [foldRecords, List.foldl_cons, ← foldRecords, ih, recordRequest_totalRequests]
    simp only [List.length_cons]
    push_cast
    ring

theorem foldRecords_totalHits (l : List RecordCall) (c : Collector) :
    (foldRecords l c).totalHits =
      c.totalHits + (l.countP (fun r => r.cacheHit) : ℤ) := by
  induction l generalizing c with
  | nil => simp [foldRecords, List.countP_nil]
  | cons x xs ih =>
    rw [foldRecords, List.foldl_cons, ← foldRecords, ih]
    cases hx : x.cacheHit
    · rw [recordRequest_totalHits_miss c x hx, List.countP_cons_of_neg]
      simp [hx]
    · rw [recordRequest_totalHits_hit c x hx, List.countP_cons_of_pos]
      · push_cast
        ring
      · simp [hx]

theorem foldRecords_length (l : List RecordCall) (c : Collector)
    (hinv : c.requests.length ≤ c.maxRequests) :
    (foldRecords l c).requests.length = min (c.requests.length + l.length) c.maxRequests := by
  induction l generalizing c with
  | nil => simp [foldRecords]; omega
  | cons x xs ih =>
    rw [foldRecords, List.foldl_cons, ← foldRecords]
    have hlen := recordRequest_length c x
    have hmax := recordRequest_maxRequests c x
    by_cases h : c.requests.length < c.maxRequests
    · rw [if_pos h] at hlen
      rw [ih (c.recordRequest x) (by omega), hlen, hmax]
      simp only [List.length_cons]
      omega
    · rw [if_neg h] at hlen
      rw [ih (c.recordRequest x) (by omega), hlen, hmax]
      simp only [List.length_cons]
      omega

theorem foldRecords_fill (l : List RecordCall) (c : Collector)
    (h : c.requests.length + l.length ≤ c.maxRequests) :
    (foldRecords l c).requests = c.requests ++ l.map metricOf ∧
    (foldRecords l c).requestIdx = c.requestIdx := by
  induction l generalizing c with
  | nil => simp [foldRecords]
  | cons x xs ih =>
    rw [foldRecords, List.foldl_cons, ← foldRecords]
    simp only [List.length_cons] at h
    have hx : c.requests.length < c.maxRequests := by omega
    obtain ⟨hreq, hidx⟩ := recordRequest_fill c x hx
    have hmax := recordRequest_maxRequests c x
    have h' : (c.recordRequest x).requests.length + xs.length ≤
        (c.recordRequest x).maxRequests := by
      rw [hreq, hmax]
      simp only [List.length_append, List.length_singleton]
      omega
    obtain ⟨hreq', hidx'⟩ := ih (c.recordRequest x) h'
    refine ⟨?_, by rw [hidx', hidx]⟩
    rw [hreq', hreq, List.map_cons, List.append_assoc]
    rfl

/-! ### Collector: distributions -/

theorem latencyDistribution_sum (l : List RequestMetric) :
    sumCounts (calculateLatencyDistribution l) = l.length := by
  induction l with
  | nil => rfl
  | cons r t ih =>
    simp only [calculateLatencyDistribution, sumCounts, List.map_cons, List.map_nil,
      List.sum_cons, List.sum_nil, List.countP_cons] at ih ⊢
    by_cases h10 : r.latencyMs < 10 <;> by_cases h50 : r.latencyMs < 50 <;>
      by_cases h100 : r.latencyMs < 100 <;> by_cases h500 : r.latencyMs < 500 <;>
      simp [h10, h50, h100, h500] <;> omega

/-- `simGe` is antitone in the threshold over positive thresholds, for every
pair. -/
theorem simGe_mono (s : Sim) {t t' : ℚ} (h0 : 0 < t) (htt : t ≤ t')
    (h : simGe s t' = true) : simGe s t = true := by
  unfold simGe at h ⊢
  by_cases hn : 0 ≤ s.1
  · simp only [if_pos hn, Bool.or_eq_true, decide_eq_true_iff] at h ⊢
    rcases h with h | h
    · exfalso
      linarith
    · right
      by_cases hS : 0 ≤ s.2
      · have ht2 : t ^ 2 ≤ t' ^ 2 := by nlinarith
        calc t ^ 2 * s.2 ≤ t' ^ 2 * s.2 := mul_le_mul_of_nonneg_right ht2 hS
          _ ≤ s.1 ^ 2 := h
      · have h1 : t ^ 2 * s.2 ≤ 0 :=
          mul_nonpos_of_nonneg_of_nonpos (sq_nonneg t) (le_of_not_le hS)
        calc t ^ 2 * s.2 ≤ 0 := h1
          _ ≤ s.1 ^ 2 := sq_nonneg _
  · simp only [if_neg hn, Bool.and_eq_true, decide_eq_true_iff] at h
    exfalso
    linarith [h.1]

theorem similarityDistribution_sum (l : List RequestMetric) :
    sumCounts (calculateSimilarityDistribution l) = l.countP (fun r => r.cacheHit) := by
  induction l with
  | nil => rfl
  | cons r t ih =>
    simp only [calculateSimilarityDistribution, sumCounts, List.map_cons, List.map_nil,
      List.sum_cons, List.sum_nil, List.countP_cons] at ih ⊢
    cases hhit : r.cacheHit
    · simp [hhit]
      omega
    · by_cases h99 : simGe r.similarity (99 / 100) = true
      · have h97 : simGe r.similarity (97 / 100) = true :=
          simGe_mono r.similarity (by norm_num) (by norm_num) h99
        have h95 : simGe r.similarity (19 / 20) = true :=
          simGe_mono r.similarity (by norm_num) (by norm_num) h99
        have h90 : simGe r.similarity (9 / 10) = true :=
          simGe_mono r.similarity (by norm_num) (by norm_num) h99
        simp [hhit, h99, h97, h95, h90]
        omega
      · have hb99 : simGe r.similarity (99 / 100) = false := by
          revert h99
          cases simGe r.similarity (99 / 100) <;> simp
        by_cases h97 : simGe r.similarity (97 / 100) = true
        · have h95 : simGe r.similarity (19 / 20) = true :=
            simGe_mono r.similarity (by norm_num) (by norm_num) h97
          have h90 : simGe r.similarity (9 / 10) = true :=
            simGe_mono r.similarity (by norm_num) (by norm_num) h97
          simp [hhit, hb99, h97, h95, h90]
          omega
        · have hb97 : simGe r.similarity (97 / 100) = false := by
            revert h97
            cases simGe r.similarity (97 / 100) <;> simp
          by_cases h95 : simGe r.similarity (19 / 20) = true
          · have h90 : simGe r.similarity (9 / 10) = true :=
              simGe_mono r.similarity (by norm_num) (by norm_num) h95
            simp [hhit, hb99, hb97, h95, h90]
            omega
          · have hb95 : simGe r.similarity (19 / 20) = false := by
              revert h95
              cases simGe r.similarity (19 / 20) <;> simp
            by_cases h90 : simGe r.similarity (9 / 10) = true
            · simp [hhit, hb99, hb97, hb95, h90]
              omega
            · have hb90 : simGe r.similarity (9 / 10) = false := by
                revert h90
                cases simGe r.similarity (9 / 10) <;> simp
              simp [hhit, hb99, hb97, hb95, hb90]
              omega

theorem getReport_latencyDistribution (c : Collector) (now : ℤ) :
    (c.getReport now).latencyDistribution = calculateLatencyDistribution c.requests := rfl

theorem getReport_similarityDistribution (c : Collector) (now : ℤ) :
    (c.getReport now).similarityDistribution = calculateSimilarityDistribution c.requests := rfl

theorem getReport_totalRequests (c : Collector) (now : ℤ) :
    (c.getReport now).totalRequests = c.totalRequests := rfl

theorem getReport_totalHits (c : Collector) (now : ℤ) :
    (c.getReport now).totalHits = c.totalHits := rfl

theorem getReport_recentRequests (c : Collector) (now : ℤ) :
    (c.getReport now).recentRequests = c.requests.reverse.take 50 := rfl

/-! ### Claim C1 -/

/-- C1: for every cache state and query vector, `Get(query, threshold)`
returns `found=true` together with a stored entry of maximum cosine
similarity to the query iff that maximum over the non-expired entries is
`≥ threshold`; an entry with `expires_at ≤ now` is never returned as a hit,
even when its similarity would meet the threshold. -/
theorem get_spec (c : MemoryCache) (now : ℤ) (q : List ℚ) (t : ℚ) :
    ((∃ e s, (c.get now q t).1 = some (e, s)) ↔
      ∃ e, e ∈ c.entries ∧ now < e.expiresAt ∧ (t : ℝ) ≤ CosineSimilarity q e.embedding) ∧
    (∀ e s, (c.get now q t).1 = some (e, s) →
      e ∈ c.entries ∧ now < e.expiresAt ∧
      simVal s = CosineSimilarity q e.embedding ∧ (t : ℝ) ≤ simVal s ∧
      ∀ u ∈ c.entries, now < u.expiresAt → CosineSimilarity q u.embedding ≤ simVal s) :=
  get_characterization c now q t

/-- Witness for C1: a concrete one-entry cache in which the entry is live
and similar, so `Get` returns it. -/
theorem get_spec_witness :
    (cacheW.get 0 [1] 0).1 = some (entryW [1] 100 0 "A", (1, 1)) ∧
    (entryW [1] 100 0 "A" ∈ cacheW.entries ∧ (0 : ℤ) < (entryW [1] 100 0 "A").expiresAt ∧
      simVal (1, 1) = CosineSimilarity [1] (entryW [1] 100 0 "A").embedding ∧
      ((0 : ℚ) : ℝ) ≤ simVal (1, 1) ∧
      ∀ u ∈ cacheW.entries, (0 : ℤ) < u.expiresAt →
        CosineSimilarity [1] u.embedding ≤ simVal (1, 1)) := by
  have h : (cacheW.get 0 [1] 0).1 = some (entryW [1] 100 0 "A", (1, 1)) := by
    norm_num [MemoryCache.get, scanBest, scanStep, cosineSimP, degenerate, normSq, dotQ,
      simGe, cacheW, entryW, optsW, reqW, respW, msgW, List.foldl]
  exact ⟨h, (get_spec cacheW 0 [1] 0).2 (entryW [1] 100 0 "A") (1, 1) h⟩

/-! ### Claim C2 -/

/-- C2: starting from a cache with `max_size ≥ 1`, no sequence of `Set` calls
makes the store exceed `max_size`; a `Set` that inserts a new identifier at
capacity first evicts an entry of minimal `last_hit_at` (its key is gone
afterwards), and a `Set` that replaces an existing identifier evicts
nothing (the key list is unchanged). -/
theorem set_capacity_spec :
    (∀ (opts : Options) (l : List CacheEntry), 1 ≤ opts.maxSize →
      (foldSets l (NewMemoryCache (some opts))).entries.length ≤ opts.maxSize) ∧
    (∀ (c : MemoryCache) (e : CacheEntry),
      (c.entries.map (fun u => u.embedding)).Nodup →
      c.entries.length = c.opts.maxSize → 1 ≤ c.opts.maxSize →
      (∀ u ∈ c.entries, u.embedding ≠ e.embedding) →
      ∃ victim ∈ c.entries,
        (∀ u ∈ c.entries, victim.lastHitAt ≤ u.lastHitAt) ∧
        (c.set e).entries.length = c.opts.maxSize ∧
        e ∈ (c.set e).entries ∧
        ∀ u ∈ (c.set e).entries, u.embedding ≠ victim.embedding) ∧
    (∀ (c : MemoryCache) (e : CacheEntry), (∃ u ∈ c.entries, u.embedding = e.embedding) →
      (c.set e).entries.length = c.entries.length ∧
      (c.set e).entries.map (fun u => u.embedding) =
        c.entries.map (fun u => u.embedding)) := by
  refine ⟨?_, set_evicts, set_replace_keys⟩
  intro opts l hmax
  have h := foldSets_length l (NewMemoryCache (some opts)) hmax (by simp [NewMemoryCache])
  simpa [NewMemoryCache] using h

/-- Witness for C2: three inserts into a capacity-1 cache leave at most one
entry. -/
theorem set_capacity_spec_witness :
    1 ≤ (1 : ℕ) ∧
    (foldSets [entryW [1] 100 0 "A", entryW [2] 100 1 "B", entryW [3] 100 2 "C"]
      (NewMemoryCache (some ⟨1, 3600000, 3600000, 19 / 20⟩))).entries.length ≤ 1 :=
  ⟨le_refl 1,
    set_capacity_spec.1 ⟨1, 3600000, 3600000, 19 / 20⟩
      [entryW [1] 100 0 "A", entryW [2] 100 1 "B", entryW [3] 100 2 "C"] (le_refl 1)⟩

/-! ### Claim C3 -/

/-- C3 counterexample: for the zero vector `v = [0]` and threshold `t = 1`,
`Get(v, 1)` immediately after `Set` of an entry with embedding `v` misses:
the zero-magnitude fallback makes the stored similarity 0, not 1. -/
theorem set_get_identity_counterexample :
    ((cacheEmpty.set (entryW [0] 100 0 "A")).get 0 [0] 1).1 = none := by
  norm_num [MemoryCache.get, MemoryCache.set, scanBest, scanStep, cosineSimP, degenerate,
    normSq, dotQ, simGe, evictLRU, cacheEmpty, entryW, optsW, reqW, respW, msgW, List.foldl]

/-- C3 (amended): for every vector `v` of nonzero magnitude and threshold
`t ≤ 1`, immediately after `Set` of an entry with embedding `v` that is not
yet expired, `Get(v, t)` returns `found=true` with similarity exactly 1
(hence `≥ 1 - ε` for every `ε ≥ 0`). -/
theorem set_get_identity_spec (c : MemoryCache) (e : CacheEntry) (v : List ℚ) (t : ℚ)
    (now : ℤ) (hemb : e.embedding = v) (hnz : normSq v ≠ 0) (hlive : now < e.expiresAt)
    (ht : t ≤ 1) :
    ∃ w s, ((c.set e).get now v t).1 = some (w, s) ∧ simVal s = 1 ∧
      ∀ ε : ℝ, 0 ≤ ε → 1 - ε ≤ simVal s := by
  have hmem : e ∈ (c.set e).entries := set_mem_self c e
  have hcos : CosineSimilarity v e.embedding = 1 := by
    rw [hemb]
    exact cosine_self hnz
  have hex : ∃ u, u ∈ (c.set e).entries ∧ now < u.expiresAt ∧
      (t : ℝ) ≤ CosineSimilarity v u.embedding := by
    refine ⟨e, hmem, hlive, ?_⟩
    rw [hcos]
    exact_mod_cast ht
  obtain ⟨w, s, hws⟩ := (get_characterization (c.set e) now v t).1.mpr hex
  obtain ⟨hwmem, hwlive, hval, -, hdom⟩ := (get_characterization (c.set e) now v t).2 w s hws
  have hle1 : simVal s ≤ 1 := by
    rw [hval]
    exact (cosine_bounds v w.embedding).2
  have hge1 : (1 : ℝ) ≤ simVal s := by
    have := hdom e hmem hlive
    rw [hcos] at this
    exact this
  have hone : simVal s = 1 := le_antisymm hle1 hge1
  exact ⟨w, s, hws, hone, fun ε hε => by rw [hone]; linarith⟩

/-- Witness for C3 (amended) at `v = [1]`. -/
theorem set_get_identity_spec_witness :
    ((entryW [1] 100 0 "A").embedding = [1] ∧ normSq [(1 : ℚ)] ≠ 0 ∧
      (0 : ℤ) < (entryW [1] 100 0 "A").expiresAt ∧ (1 : ℚ) ≤ 1) ∧
    (∃ w s, ((cacheEmpty.set (entryW [1] 100 0 "A")).get 0 [1] 1).1 = some (w, s) ∧
      simVal s = 1 ∧ ∀ ε : ℝ, 0 ≤ ε → 1 - ε ≤ simVal s) :=
  ⟨⟨rfl, by norm_num [normSq, dotQ], by norm_num [entryW], le_refl 1⟩,
    set_get_identity_spec cacheEmpty (entryW [1] 100 0 "A") [1] 1 0 rfl
      (by norm_num [normSq, dotQ]) (by norm_num [entryW]) (le_refl 1)⟩

/-! ### Claim C9 -/

/-- C9 counterexample: when the embedding is already present before the
pair, `Set(e₁); Set(e₂)` with that same embedding leaves `Size()` equal to
its old value, not old value plus one. -/
theorem set_twice_counterexample :
    ¬ (((cacheW.set (entryW [1] 100 0 "B")).set (entryW [1] 200 0 "C")).size =
        cacheW.size + 1) := by
  norm_num [MemoryCache.size, MemoryCache.set, cacheW, entryW, optsW, reqW, respW, msgW,
    evictLRU]

/-- C9 (amended): if the shared embedding is not already stored and the cache
is below capacity, `Set(e₁); Set(e₂)` with the same embedding leaves
`Size()` at its old value plus one (replacement, not duplication), and a
subsequent `Get` with that embedding — nonzero magnitude, `e₂` unexpired,
threshold `≤ 1`, and no other stored entry attaining similarity 1 — returns
the second entry. -/
theorem set_twice_spec (c : MemoryCache) (e₁ e₂ : CacheEntry) (v : List ℚ) (t : ℚ)
    (now : ℤ) (h1 : e₁.embedding = v) (h2 : e₂.embedding = v)
    (hfresh : ∀ u ∈ c.entries, u.embedding ≠ v)
    (hroom : c.entries.length < c.opts.maxSize) :
    ((c.set e₁).set e₂).size = c.size + 1 ∧
    (normSq v ≠ 0 → now < e₂.expiresAt → t ≤ 1 →
      (∀ u ∈ c.entries, CosineSimilarity v u.embedding < 1) →
      ∃ s, (((c.set e₁).set e₂).get now v t).1 = some (e₂, s)) := by
  have hstep1 : (c.set e₁).entries = c.entries ++ [e₁] := by
    apply set_of_absent
    · intro u humem
      rw [h1]
      exact hfresh u humem
    · exact hroom
  have hstep2 : ((c.set e₁).set e₂).entries = c.entries ++ [e₂] := by
    have hpresent : ∃ u ∈ (c.set e₁).entries, u.embedding = e₂.embedding := by
      refine ⟨e₁, ?_, by rw [h1, h2]⟩
      rw [hstep1]
      exact List.mem_append_right _ (List.mem_singleton.mpr rfl)
    rw [set_of_present _ _ hpresent, hstep1, List.map_append]
    congr 1
    · have hmapeq : c.entries.map (fun u => if u.embedding = e₂.embedding then e₂ else u) =
          c.entries.map id :=
        List.map_congr_left (fun u hu => by
          rw [if_neg (by rw [h2]; exact hfresh u hu), id])
      rw [hmapeq, List.map_id]
    · simp only [List.map_cons, List.map_nil]
      rw [if_pos (by rw [h1, h2])]
  constructor
  · simp only [MemoryCache.size, hstep2, List.length_append, List.length_singleton]
  · intro hnz hlive ht hother
    have hmem₂ : e₂ ∈ ((c.set e₁).set e₂).entries := by
      rw [hstep2]
      exact List.mem_append_right _ (List.mem_singleton.mpr rfl)
    have hcos : CosineSimilarity v e₂.embedding = 1 := by
      rw [h2]
      exact cosine_self hnz
    have hex : ∃ u, u ∈ ((c.set e₁).set e₂).entries ∧ now < u.expiresAt ∧
        (t : ℝ) ≤ CosineSimilarity v u.embedding := by
      refine ⟨e₂, hmem₂, hlive, ?_⟩
      rw [hcos]
      exact_mod_cast ht
    obtain ⟨w, s, hws⟩ := (get_characterization ((c.set e₁).set e₂) now v t).1.mpr hex
    obtain ⟨hwmem, hwlive, hval, -, hdom⟩ :=
      (get_characterization ((c.set e₁).set e₂) now v t).2 w s hws
    have hge1 : (1 : ℝ) ≤ simVal s := by
      have := hdom e₂ hmem₂ hlive
      rw [hcos] at this
      exact this
    rw [hstep2] at hwmem
    rcases List.mem_append.mp hwmem with hw | hw
    · exfalso
      have hlt := hother w hw
      rw [hval] at hge1
      linarith
    · have hwe : w = e₂ := List.mem_singleton.mp hw
      subst hwe
      exact ⟨s, hws⟩

/-- Witness for C9 (amended): the pair of `Set` calls on an empty cache. -/
theorem set_twice_spec_witness :
    ((cacheEmpty.set (entryW [1] 100 0 "B")).set (entryW [1] 200 0 "C")).size =
      cacheEmpty.size + 1 ∧
    ∃ s, (((cacheEmpty.set (entryW [1] 100 0 "B")).set (entryW [1] 200 0 "C")).get
        0 [1] 1).1 = some (entryW [1] 200 0 "C", s) := by
  have h := set_twice_spec cacheEmpty (entryW [1] 100 0 "B") (entryW [1] 200 0 "C") [1] 1 0
    rfl rfl (by intro u hu; simp [cacheEmpty] at hu) (by norm_num [cacheEmpty, optsW])
  refine ⟨h.1, ?_⟩
  exact h.2 (by norm_num [normSq, dotQ]) (by norm_num [entryW]) (le_refl 1)
    (by intro u hu; simp [cacheEmpty] at hu)

/-! ### The embedder fill loop -/

theorem fillLoop_none (n : ℕ) (ds : List EmbeddingData) : fillLoop n ds none = none := by
  induction ds with
  | nil => rfl
  | cons x xs ih =>
    rw [fillLoop, List.foldl_cons]
    exact ih

theorem fillLoop_panic (n : ℕ) (ds : List EmbeddingData)
    (h : ∃ d ∈ ds, d.index < 0 ∨ ¬ d.index.toNat < n) :
    ∀ acc, fillLoop n ds acc = none := by
  induction ds with
  | nil =>
    obtain ⟨d, hd, -⟩ := h
    exact absurd hd (List.not_mem_nil d)
  | cons x xs ih =>
    intro acc
    obtain ⟨d, hd, hbad⟩ := h
    rcases List.mem_cons.mp hd with rfl | hdxs
    · rw [fillLoop, List.foldl_cons]
      match acc with
      | none => exact fillLoop_none n xs
      | some arr =>
        have hcond : ¬ ((0 : ℤ) ≤ d.index ∧ d.index.toNat < n) := by
          rcases hbad with hneg | hge
          · rintro ⟨h0, -⟩
            omega
          · rintro ⟨-, hlt⟩
            exact hge hlt
        simp only [if_neg hcond]
        exact fillLoop_none n xs
    · rw [fillLoop, List.foldl_cons]
      match acc with
      | none => exact fillLoop_none n xs
      | some arr =>
        by_cases hcond : (0 : ℤ) ≤ x.index ∧ x.index.toNat < n
        · simp only [if_pos hcond]
          exact ih ⟨d, hdxs, hbad⟩ _
        · simp only [if_neg hcond]
          exact fillLoop_none n xs

theorem fillLoop_good (n : ℕ) (ds : List EmbeddingData) :
    ∀ (arr : List (List ℚ)), arr.length = n →
    (∀ d ∈ ds, (0 : ℤ) ≤ d.index ∧ d.index.toNat < n) →
    ∃ arr2, fillLoop n ds (some arr) = some arr2 ∧ arr2.length = n ∧
      (∀ j, (∀ d ∈ ds, d.index.toNat ≠ j) → arr2[j]? = arr[j]?) ∧
      ((ds.map (fun d => d.index)).Nodup →
        ∀ d ∈ ds, arr2[d.index.toNat]? = some d.embedding) := by
  induction ds with
  | nil =>
    intro arr harr hall
    refine ⟨arr, rfl, harr, fun j hj => rfl, fun hnd d hd => absurd hd (List.not_mem_nil d)⟩
  | cons x xs ih =>
    intro arr harr hall
    have hx := hall x (List.mem_cons_self x xs)
    have hfold : fillLoop n (x :: xs) (some arr) =
        fillLoop n xs (some (arr.set x.index.toNat x.embedding)) := by
      rw [fillLoop, List.foldl_cons, ← fillLoop]
      simp only [if_pos hx]
    have harr1 : (arr.set x.index.toNat x.embedding).length = n := by
      rw [List.length_set]
      exact harr
    obtain ⟨arr2, hfold2, hlen2, hpres, hcontent⟩ :=
      ih (arr.set x.index.toNat x.embedding) harr1
        (fun d hd => hall d (List.mem_cons_of_mem x hd))
    refine ⟨arr2, by rw [hfold, hfold2], hlen2, ?_, ?_⟩
    · intro j hj
      have h1 : arr2[j]? = (arr.set x.index.toNat x.embedding)[j]? :=
        hpres j (fun d hd => hj d (List.mem_cons_of_mem x hd))
      rw [h1, List.getElem?_set_ne (hj x (List.mem_cons_self x xs))]
    · intro hnd d hd
      rw [List.map_cons, List.nodup_cons] at hnd
      rcases List.mem_cons.mp hd with rfl | hdxs
      · have hne : ∀ e ∈ xs, e.index.toNat ≠ d.index.toNat := by
          intro e he hcon
          apply hnd.1
          have h0e := (hall e (List.mem_cons_of_mem d he)).1
          have h0d := (hall d (List.mem_cons_self d xs)).1
          have hidx : e.index = d.index := by omega
          exact hidx ▸ List.mem_map.mpr ⟨e, he, rfl⟩
        have h1 : arr2[d.index.toNat]? = (arr.set d.index.toNat d.embedding)[d.index.toNat]? :=
          hpres d.index.toNat hne
        rw [h1, List.getElem?_set_self (by rw [harr]; exact hx.2)]
      · exact hcontent hnd.2 d hdxs

/-! ### Claim C10 -/

/-- C10: `OpenAIEmbedder.EmbedBatch` allocates its result with length equal
to the number of `Data` elements and writes each embedding at position
`Data[j].Index`; for any successfully parsed 200 response containing an
index outside `[0, len(Data))` it panics (a runtime index-out-of-range,
modelled as `panicked`) rather than returning an error value; for an empty
input it returns a nil result and nil error without consulting the
network. -/
theorem embedBatch_spec :
    (∀ net net2 : NetOutcome, OpenAIEmbedBatch [] net = .success none ∧
      OpenAIEmbedBatch [] net = OpenAIEmbedBatch [] net2) ∧
    (∀ (texts : List String) (resp : EmbeddingResponse), texts ≠ [] →
      (∃ d ∈ resp.data, d.index < 0 ∨ ¬ d.index.toNat < resp.data.length) →
      OpenAIEmbedBatch texts (.response 200 (some resp)) = .panicked) ∧
    (∀ (texts : List String) (resp : EmbeddingResponse), texts ≠ [] →
      (∀ d ∈ resp.data, (0 : ℤ) ≤ d.index ∧ d.index.toNat < resp.data.length) →
      ∃ arr, OpenAIEmbedBatch texts (.response 200 (some resp)) = .success (some arr) ∧
        arr.length = resp.data.length ∧
        ((resp.data.map (fun d => d.index)).Nodup →
          ∀ d ∈ resp.data, arr[d.index.toNat]? = some d.embedding)) := by
  refine ⟨fun net net2 => ⟨rfl, rfl⟩, ?_, ?_⟩
  · intro texts resp htexts hbad
    have hne : texts.isEmpty = false := by
      cases texts
      · exact absurd rfl htexts
      · rfl
    simp [OpenAIEmbedBatch, hne, fillLoop_panic resp.data.length resp.data hbad]
  · intro texts resp htexts hgood
    have hne : texts.isEmpty = false := by
      cases texts
      · exact absurd rfl htexts
      · rfl
    obtain ⟨arr2, hfold, hlen, -, hcontent⟩ :=
      fillLoop_good resp.data.length resp.data (List.replicate resp.data.length [])
        (List.length_replicate _ _) hgood
    refine ⟨arr2, ?_, hlen, hcontent⟩
    simp [OpenAIEmbedBatch, hne, hfold]

/-- Witness for C10: an out-of-range index panics, an in-range one fills the
slot. -/
theorem embedBatch_spec_witness :
    ((["t"] : List String) ≠ [] ∧
      OpenAIEmbedBatch ["t"] (.response 200 (some ⟨[⟨5, [1]⟩]⟩)) = .panicked) ∧
    (∃ arr, OpenAIEmbedBatch ["t"] (.response 200 (some ⟨[⟨0, [1, 2]⟩]⟩)) =
        .success (some arr) ∧ arr.length = 1 ∧
        ((([⟨(0 : ℤ), [(1 : ℚ), 2]⟩] : List EmbeddingData).map (fun d => d.index)).Nodup →
          ∀ d ∈ ([⟨(0 : ℤ), [(1 : ℚ), 2]⟩] : List EmbeddingData),
            arr[d.index.toNat]? = some d.embedding)) := by
  constructor
  · exact ⟨by simp, embedBatch_spec.2.1 ["t"] ⟨[⟨5, [1]⟩]⟩ (by simp)
      ⟨⟨5, [1]⟩, List.mem_singleton.mpr rfl, Or.inr (by norm_num)⟩⟩
  · obtain ⟨arr, h1, h2, h3⟩ := embedBatch_spec.2.2 ["t"] ⟨[⟨0, [1, 2]⟩]⟩ (by simp)
      (by rintro d hd; rcases List.mem_singleton.mp hd with rfl; norm_num)
    exact ⟨arr, h1, h2, fun hnd => h3 hnd⟩

/-- C5: on the cacheable chat-completions miss path, an entry is admitted via
`Set` iff the upstream status is exactly 200 and the body parses as a
`ChatResponse`; the upstream response (any status, including non-2xx) is
returned to the client verbatim with the `MISS` header and is never cached
when the status is not 200; a `Set` failure is logged as a warning and the
client response does not depend on it. -/
theorem admission_spec (cfg : Config) (pcr : String → Option ChatCompletionResponse)
    (emb : List ℚ) (st : ℕ) (bd : String) (setFails : Bool)
    (req : ChatCompletionRequest) (c : MemoryCache) (col : Collector) (now latencyMs : ℤ)
    (hstream : req.stream = false)
    (hmiss : (c.get now emb cfg.similarityThreshold).1 = none) :
    (handleChatCompletions cfg pcr (some emb) (some (st, bd)) setFails req c col now
        latencyMs).status = st ∧
    (handleChatCompletions cfg pcr (some emb) (some (st, bd)) setFails req c col now
        latencyMs).body = .raw bd ∧
    (handleChatCompletions cfg pcr (some emb) (some (st, bd)) setFails req c col now
        latencyMs).cacheHeader = some "MISS" ∧
    ((handleChatCompletions cfg pcr (some emb) (some (st, bd)) setFails req c col now
        latencyMs).admitted ≠ none ↔ st = 200 ∧ ∃ cr, pcr bd = some cr) ∧
    (∀ cr, st = 200 → pcr bd = some cr →
      (handleChatCompletions cfg pcr (some emb) (some (st, bd)) setFails req c col now
        latencyMs).admitted = some ⟨req, cr, emb, now, now + cfg.cacheTTL, 0, now⟩) ∧
    (st ≠ 200 →
      (handleChatCompletions cfg pcr (some emb) (some (st, bd)) setFails req c col now
        latencyMs).admitted = none ∧
      (handleChatCompletions cfg pcr (some emb) (some (st, bd)) setFails req c col now
        latencyMs).cache = (c.get now emb cfg.similarityThreshold).2) ∧
    (setFails = true →
      (handleChatCompletions cfg pcr (some emb) (some (st, bd)) setFails req c col now
        latencyMs).cache = (c.get now emb cfg.similarityThreshold).2 ∧
      ((handleChatCompletions cfg pcr (some emb) (some (st, bd)) setFails req c col now
        latencyMs).admitted ≠ none →
        "failed to cache response" ∈ (handleChatCompletions cfg pcr (some emb)
          (some (st, bd)) setFails req c col now latencyMs).warns)) ∧
    (setFails = false → ∀ e,
      (handleChatCompletions cfg pcr (some emb) (some (st, bd)) setFails req c col now
        latencyMs).admitted = some e →
      (handleChatCompletions cfg pcr (some emb) (some (st, bd)) setFails req c col now
        latencyMs).cache = ((c.get now emb cfg.similarityThreshold).2).set e) := by
  rcases hget : c.get now emb cfg.similarityThreshold with ⟨res, c₁⟩
  rw [hget] at hmiss
  simp only at hmiss
  subst hmiss
  by_cases hst : st = 200
  · cases hparse : pcr bd with
    | none =>
      subst hst
      simp [handleChatCompletions, hstream, hget, hparse]
    | some cr =>
      subst hst
      cases setFails <;> simp [handleChatCompletions, hstream, hget, hparse]
  · cases setFails <;> simp [handleChatCompletions, hstream, hget, hst]

/-- Witness for C5 on a concrete miss-then-200 run. -/
theorem admission_spec_witness :
    reqW.stream = false ∧
    (cacheEmpty.get 0 [1] cfgW.similarityThreshold).1 = none ∧
    (handleChatCompletions cfgW pcrW (some [1]) (some (200, "ok")) false reqW cacheEmpty
      (NewCollector 0) 0 5).status = 200 ∧
    (handleChatCompletions cfgW pcrW (some [1]) (some (200, "ok")) false reqW cacheEmpty
      (NewCollector 0) 0 5).body = .raw "ok" ∧
    (handleChatCompletions cfgW pcrW (some [1]) (some (200, "ok")) false reqW cacheEmpty
      (NewCollector 0) 0 5).admitted =
        some ⟨reqW, respW "id", [1], 0, 0 + cfgW.cacheTTL, 0, 0⟩ :=
  ⟨rfl, rfl,
    (admission_spec cfgW pcrW [1] 200 "ok" false reqW cacheEmpty (NewCollector 0) 0 5
      rfl rfl).1,
    (admission_spec cfgW pcrW [1] 200 "ok" false reqW cacheEmpty (NewCollector 0) 0 5
      rfl rfl).2.1,
    (admission_spec cfgW pcrW [1] 200 "ok" false reqW cacheEmpty (NewCollector 0) 0 5
      rfl rfl).2.2.2.2.1 (respW "id") rfl rfl⟩

/-! ### Claim C6 -/

/-- C6 counterexample: on an embedder failure the collector records nothing —
the trace shows no `RecordRequest` call and the collector is untouched —
whereas the claim says the request is recorded as a miss with
`tokens_saved = 0`. -/
theorem embed_error_counterexample :
    (handleChatCompletions cfgW pcrW none (some (200, "body")) false reqW cacheEmpty
      (NewCollector 0) 0 5).recorded = none ∧
    (handleChatCompletions cfgW pcrW none (some (200, "body")) false reqW cacheEmpty
      (NewCollector 0) 0 5).collector = NewCollector 0 ∧
    (handleChatCompletions cfgW pcrW none (some (200, "body")) false reqW cacheEmpty
      (NewCollector 0) 0 5).status = 200 ∧
    (handleChatCompletions cfgW pcrW none (some (200, "body")) false reqW cacheEmpty
      (NewCollector 0) 0 5).body = .raw "body" :=
  ⟨rfl, rfl, rfl, rfl⟩

/-- C6 (amended): when the embedder fails on a non-streaming request, the
pipeline logs a warning, forwards to upstream without consulting or writing
the cache, and returns the upstream response verbatim; the collector is not
updated at all (no miss is recorded). -/
theorem embed_error_spec (cfg : Config) (pcr : String → Option ChatCompletionResponse)
    (upstream : Option (ℕ × String)) (setFails : Bool) (req : ChatCompletionRequest)
    (c : MemoryCache) (col : Collector) (now latencyMs : ℤ)
    (hstream : req.stream = false) :
    (handleChatCompletions cfg pcr none upstream setFails req c col now latencyMs).cache
      = c ∧
    (handleChatCompletions cfg pcr none upstream setFails req c col now latencyMs).collector
      = col ∧
    (handleChatCompletions cfg pcr none upstream setFails req c col now
      latencyMs).consultedCache = false ∧
    (handleChatCompletions cfg pcr none upstream setFails req c col now latencyMs).admitted
      = none ∧
    (handleChatCompletions cfg pcr none upstream setFails req c col now latencyMs).recorded
      = none ∧
    (handleChatCompletions cfg pcr none upstream setFails req c col now latencyMs).warns =
      ["failed to generate embedding, forwarding request"] ∧
    (∀ st bd, upstream = some (st, bd) →
      (handleChatCompletions cfg pcr none upstream setFails req c col now latencyMs).status
        = st ∧
      (handleChatCompletions cfg pcr none upstream setFails req c col now latencyMs).body
        = .raw bd) ∧
    (upstream = none →
      (handleChatCompletions cfg pcr none upstream setFails req c col now latencyMs).status
        = 502) := by
  cases hup : upstream with
  | none => simp [handleChatCompletions, hstream, hup]
  | some p =>
    obtain ⟨st, bd⟩ := p
    simp [handleChatCompletions, hstream, hup]

/-- Witness for C6 (amended) on a concrete run. -/
theorem embed_error_spec_witness :
    reqW.stream = false ∧
    (handleChatCompletions cfgW pcrW none (some (503, "err")) false reqW cacheW
      (NewCollector 0) 0 5).cache = cacheW ∧
    (handleChatCompletions cfgW pcrW none (some (503, "err")) false reqW cacheW
      (NewCollector 0) 0 5).collector = NewCollector 0 ∧
    (handleChatCompletions cfgW pcrW none (some (503, "err")) false reqW cacheW
      (NewCollector 0) 0 5).consultedCache = false ∧
    (handleChatCompletions cfgW pcrW none (some (503, "err")) false reqW cacheW
      (NewCollector 0) 0 5).status = 503 :=
  ⟨rfl,
    (embed_error_spec cfgW pcrW (some (503, "err")) false reqW cacheW (NewCollector 0) 0 5
      rfl).1,
    (embed_error_spec cfgW pcrW (some (503, "err")) false reqW cacheW (NewCollector 0) 0 5
      rfl).2.1,
    (embed_error_spec cfgW pcrW (some (503, "err")) false reqW cacheW (NewCollector 0) 0 5
      rfl).2.2.1,
    ((embed_error_spec cfgW pcrW (some (503, "err")) false reqW cacheW (NewCollector 0) 0 5
      rfl).2.2.2.2.2.2.1 503 "err" rfl).1⟩

/-! ### Claim C7 -/

/-- C7 counterexample: after 1001 `RecordRequest` calls on a fresh collector,
the latency-distribution counts (computed over the 1000-slot ring) sum to
1000, not to `total_requests = 1001`. -/
theorem distribution_sum_counterexample :
    (sumCounts repReport.latencyDistribution : ℤ) = 1000 ∧
    repReport.totalRequests = 1001 ∧
    (sumCounts repReport.latencyDistribution : ℤ) ≠ repReport.totalRequests := by
  have h1 : sumCounts repReport.latencyDistribution = 1000 := by
    rw [repReport, getReport_latencyDistribution, latencyDistribution_sum,
      foldRecords_length _ _ (by rw [NewCollector]; norm_num)]
    rw [repInputs, NewCollector]
    simp only [List.length_nil, List.length_replicate, Nat.zero_add]
    omega
  have h2 : repReport.totalRequests = 1001 := by
    rw [repReport, getReport_totalRequests, foldRecords_totalRequests, repInputs,
      NewCollector]
    simp only [List.length_replicate]
    norm_num
  refine ⟨by rw [h1]; norm_num, h2, ?_⟩
  rw [h1, h2]
  norm_num

/-- C7 (amended): the distributions are computed over the bounded request
ring: the latency-distribution counts always sum to `min(n, 1000)` after `n`
records on a fresh collector, and as long as at most 1000 requests have been
recorded the latency counts sum to `total_requests` and the similarity
counts (over hits only) sum to `total_hits`. -/
theorem distribution_sums_spec (l : List RecordCall) (t₀ now : ℤ) :
    sumCounts (((foldRecords l (NewCollector t₀)).getReport now).latencyDistribution) =
      min l.length 1000 ∧
    (l.length ≤ 1000 →
      (sumCounts (((foldRecords l (NewCollector t₀)).getReport now).latencyDistribution) : ℤ)
          = ((foldRecords l (NewCollector t₀)).getReport now).totalRequests ∧
      (sumCounts (((foldRecords l (NewCollector t₀)).getReport now).similarityDistribution) : ℤ)
          = ((foldRecords l (NewCollector t₀)).getReport now).totalHits) := by
  have hA : sumCounts (((foldRecords l (NewCollector t₀)).getReport now).latencyDistribution)
      = min l.length 1000 := by
    rw [getReport_latencyDistribution, latencyDistribution_sum,
      foldRecords_length _ _ (by simp [NewCollector])]
    simp [NewCollector]
  refine ⟨hA, fun hle => ⟨?_, ?_⟩⟩
  · rw [hA, getReport_totalRequests, foldRecords_totalRequests, Nat.min_eq_left hle]
    simp [NewCollector]
  · rw [getReport_similarityDistribution, similarityDistribution_sum,
      getReport_totalHits, foldRecords_totalHits,
      (foldRecords_fill l (NewCollector t₀) (by simpa [NewCollector] using hle)).1]
    have hcomp : (l.map metricOf).countP (fun r => r.cacheHit) =
        l.countP (fun r => r.cacheHit) := by
      rw [List.countP_map]
      rfl
    simp only [NewCollector, List.nil_append, hcomp]
    simp

/-- Witness for C7 (amended) on a concrete two-record sequence. -/
theorem distribution_sums_spec_witness :
    ([⟨0, true, (1, 1), 5, 100, "p"⟩, ⟨0, false, (0, 1), 7, 0, "q"⟩] :
        List RecordCall).length ≤ 1000 ∧
    ((sumCounts (((foldRecords [⟨0, true, (1, 1), 5, 100, "p"⟩, ⟨0, false, (0, 1), 7, 0, "q"⟩]
          (NewCollector 0)).getReport 0).latencyDistribution) : ℤ)
        = ((foldRecords [⟨0, true, (1, 1), 5, 100, "p"⟩, ⟨0, false, (0, 1), 7, 0, "q"⟩]
          (NewCollector 0)).getReport 0).totalRequests ∧
     (sumCounts (((foldRecords [⟨0, true, (1, 1), 5, 100, "p"⟩, ⟨0, false, (0, 1), 7, 0, "q"⟩]
          (NewCollector 0)).getReport 0).similarityDistribution) : ℤ)
        = ((foldRecords [⟨0, true, (1, 1), 5, 100, "p"⟩, ⟨0, false, (0, 1), 7, 0, "q"⟩]
          (NewCollector 0)).getReport 0).totalHits) :=
  ⟨by norm_num,
    (distribution_sums_spec [⟨0, true, (1, 1), 5, 100, "p"⟩, ⟨0, false, (0, 1), 7, 0, "q"⟩]
      0 0).2 (by norm_num)⟩

/-! ### Claim C8 -/

set_option maxRecDepth 10000 in
/-- C8: after 1001 `RecordRequest` calls (the `k`-th carrying latency `k-1`)
on a fresh collector, `GetReport` reads the last 50 slots of the ring slice
while the newest record sits at slot 0: `recent_requests` starts with the
1000th record and does not contain the 1001st (most recent) one at all,
contradicting "the most recent up to 50 requests in reverse-chronological
order". -/
theorem recent_requests_bug :
    ringReport.recentRequests.head? = some (metricOf (mkCall 999)) ∧
    metricOf (mkCall 1000) ∉ ringReport.recentRequests := by
  have hsplit : ringInputs = (List.range 1000).map mkCall ++ [mkCall 1000] := by
    rw [ringInputs, List.range_succ, List.map_append, List.map_singleton]
  have hfold : ringCollector =
      Collector.recordRequest
        (foldRecords ((List.range 1000).map mkCall) (NewCollector 0)) (mkCall 1000) := by
    rw [ringCollector, hsplit, foldRecords, List.foldl_append, List.foldl_cons,
      List.foldl_nil]
    rfl
  have hfill := foldRecords_fill ((List.range 1000).map mkCall) (NewCollector 0)
    (by rw [NewCollector]; simp)
  have hmax : (foldRecords ((List.range 1000).map mkCall) (NewCollector 0)).maxRequests
      = 1000 := by
    rw [foldRecords_maxRequests]
    rfl
  have hreq₁ : (foldRecords ((List.range 1000).map mkCall) (NewCollector 0)).requests =
      ((List.range 1000).map mkCall).map metricOf := by
    rw [hfill.1, show (NewCollector 0).requests = [] from rfl, List.nil_append]
  have hidx₁ : (foldRecords ((List.range 1000).map mkCall) (NewCollector 0)).requestIdx
      = 0 := by
    rw [hfill.2]
    rfl
  have hlen₁ :
      (foldRecords ((List.range 1000).map mkCall) (NewCollector 0)).requests.length
        = 1000 := by
    rw [hreq₁]
    simp only [List.length_map, List.length_range]
  have hwrap := recordRequest_wrap
    (foldRecords ((List.range 1000).map mkCall) (NewCollector 0)) (mkCall 1000)
    (by rw [hlen₁, hmax]; omega)
  have hreq₂ : ringCollector.requests =
      (((List.range 1000).map mkCall).map metricOf).set 0 (metricOf (mkCall 1000)) := by
    rw [hfold, hwrap.1, hreq₁, hidx₁]
  have hlen₂ : ringCollector.requests.length = 1000 := by
    rw [hreq₂]
    simp only [List.length_set, List.length_map, List.length_range]
  have hrecent : ringReport.recentRequests =
      ((((List.range 1000).map mkCall).map metricOf).drop 950).reverse := by
    rw [ringReport, getReport_recentRequests]
    rw [List.take_reverse]
    rw [hlen₂]
    rw [hreq₂]
    congr 1
  have hL999 : ((((List.range 1000).map mkCall).map metricOf))[999]? =
      some (metricOf (mkCall 999)) := by
    rw [List.getElem?_map, List.getElem?_map, List.getElem?_range (by norm_num)]
    rfl
  constructor
  · rw [hrecent, List.head?_reverse, List.getLast?_eq_getElem?]
    have hdl : ((((List.range 1000).map mkCall).map metricOf).drop 950).length = 50 := by
      simp only [List.length_drop, List.length_map, List.length_range]
    rw [hdl]
    rw [List.getElem?_drop]
    have hix : 950 + (50 - 1) = 999 := by norm_num
    rw [hix]
    exact hL999
  · rw [hrecent]
    intro hmem
    rw [List.mem_reverse] at hmem
    have hmem' := List.drop_subset _ _ hmem
    obtain ⟨x, hxmem, hxeq⟩ := List.mem_map.mp hmem'
    obtain ⟨k, hkmem, hkeq⟩ := List.mem_map.mp hxmem
    have hk : k < 1000 := List.mem_range.mp hkmem
    have hlat : (metricOf (mkCall k)).latencyMs = (metricOf (mkCall 1000)).latencyMs := by
      rw [hkeq, hxeq]
    have hkk : (k : ℤ) = 1000 := hlat
    omega

end Kallm
